import Mathlib

/-!
LabSCim ADR handler (`main.go`): shallow embedding and verified properties.

Conventions of the embedding.

* Go `int` is `Int`. Every integer operation of the handler is guarded by a comparison
  (`dr++` under `dr < maxDR`, `txPowerIndex--` under `txPowerIndex > 0`, ...), so no
  integer operation of the code can leave the 64-bit range.
* Go `uint32` is `Nat`, reduced modulo `2^32` by every operation (`addU32`, `subU32`).
* Go `float32` values are rationals, and the float32 operations have two readings.
  In `getMeanSNR`, `getPacketLossPercentage` and `Handle` they are exact; these serve
  the properties that are worded in exact arithmetic or that hold whatever the
  computed margin is. In `getMeanSNRF32`, `getPacketLossPercentageF32` and `HandleF32`
  every operation is rounded to the nearest float32, ties to even (`roundF32`), as
  the hardware rounds it; these serve the properties that depend on the computed
  number of steps. Results beyond the largest float32, infinities and NaN are in
  neither reading. The conversion `int(x)` is truncation toward zero (`truncToInt`).
* A slice index out of range is a runtime fault: indexing returns `Option`, and so do
  the functions that index (`getNbTrans`, `Handle`); `none` is the fault.
* The Go result `(resp, err)` is the pair `(resp, err)` with `err : GoError`, where
  `none` is the `nil` error.
-/

namespace LabSCim

/-- Modelled from the spec: the type `adr.UplinkMetaData` of the imported package is not
under src/; these are the fields `main.go` reads, typed as in section 3 of the spec
(`FCnt` is a `uint32`, `MaxSNR` a float taken as exact, `TXPowerIndex` an `int`). -/
structure UplinkMetaData where
  FCnt : Nat
  MaxSNR : ℚ
  TXPowerIndex : Int
deriving DecidableEq, Repr

/-- Modelled from the spec: the type `adr.HandleRequest` of the imported package is not
under src/; these are the fields `main.go` reads, typed as in section 3 of the spec. -/
structure HandleRequest where
  ADR : Bool
  DR : Int
  TxPowerIndex : Int
  NbTrans : Int
  MaxTxPowerIndex : Int
  RequiredSNRForDR : ℚ
  InstallationMargin : ℚ
  MaxDR : Int
  UplinkHistory : List UplinkMetaData
deriving DecidableEq, Repr

/-- Modelled from the spec: the type `adr.HandleResponse` of the imported package is not
under src/; its three fields are the ones `Handle` fills. -/
structure HandleResponse where
  DR : Int
  TxPowerIndex : Int
  NbTrans : Int
deriving DecidableEq, Repr

/-- The Go `error` value returned next to the response; `none` is `nil`. -/
abbrev GoError := Option String

/-- Modulus of `uint32` arithmetic. -/
def u32Mod : Nat := 2 ^ 32

/-- Addition of two `uint32` values (wraps modulo `2^32`). -/
def addU32 (a b : Nat) : Nat := (a + b) % u32Mod

/-- Subtraction of two `uint32` values (wraps modulo `2^32`). -/
def subU32 (a b : Nat) : Nat := (a % u32Mod + (u32Mod - b % u32Mod)) % u32Mod

/-- The conversion `int(x)` of a float: the fractional part is discarded
(truncation toward zero). -/
def truncToInt (x : ℚ) : Int := Int.tdiv x.num (x.den : Int)

/-- Source function `ID` returns the registry key and a `nil` error. -/
def ID : String × GoError := ("labscimadr", none)

/-- Source function `Name` returns the display name and a `nil` error. -/
def Name : String × GoError := ("LabSCim ADR algorithm", none)

/-- Source function `pktLossRateTable`: the fixed table, a slice of rows of three
entries. -/
def pktLossRateTable : List (List Int) :=
  [[1, 1, 2],
   [1, 2, 3],
   [2, 3, 3],
   [3, 3, 3]]

/-- Indexing of a slice or array by a Go `int`: a negative or too large index faults. -/
def indexInt {α : Type} (xs : List α) (i : Int) : Option α :=
  if i < 0 then none else xs.get? i.toNat

/-- The expression `h.pktLossRateTable()[row][col]`. -/
def tableAt (row col : Int) : Option Int :=
  (indexInt pktLossRateTable row).bind (fun r => indexInt r col)

/-- Source function `requiredHistoryCount`. -/
def requiredHistoryCount : Int := 10

/-- Loop of `getMaxSNR`: `snrM` is the running maximum. -/
def getMaxSNRLoop (snrM : ℚ) : List UplinkMetaData → ℚ
  | [] => snrM
  | m :: rest => getMaxSNRLoop (if m.MaxSNR > snrM then m.MaxSNR else snrM) rest

/-- Source function `getMaxSNR`. -/
def getMaxSNR (req : HandleRequest) : ℚ :=
  getMaxSNRLoop (-999) req.UplinkHistory

/-- Loop of `getMeanSNR`: accumulates `sumSNR` and `countSNR` over the records whose
power index equals `txPowerIndex`, and returns both. -/
def getMeanSNRLoop (txPowerIndex : Int) (sumSNR countSNR : ℚ) :
    List UplinkMetaData → ℚ × ℚ
  | [] => (sumSNR, countSNR)
  | m :: rest =>
    if txPowerIndex = m.TXPowerIndex then
      getMeanSNRLoop txPowerIndex (sumSNR + m.MaxSNR) (countSNR + 1) rest
    else
      getMeanSNRLoop txPowerIndex sumSNR countSNR rest

/-- Source function `getMeanSNR`, float32 operations read as exact: `sumSNR / countSNR`
after the loop; `getMeanSNRF32` is the rounded reading. (With `countSNR = 0` the Go
float division gives NaN; in `ℚ` the quotient is `0`. `Handle` only calls it with
`countSNR > 10`.) -/
def getMeanSNR (req : HandleRequest) : ℚ :=
  let acc := getMeanSNRLoop req.TxPowerIndex 0 0 req.UplinkHistory
  acc.1 / acc.2

/-- Loop of `getHistoryCount`. -/
def getHistoryCountLoop (txPowerIndex : Int) (count : Int) : List UplinkMetaData → Int
  | [] => count
  | uh :: rest =>
    if txPowerIndex = uh.TXPowerIndex then
      getHistoryCountLoop txPowerIndex (count + 1) rest
    else
      getHistoryCountLoop txPowerIndex count rest

/-- Source function `getHistoryCount` returns the history count with equal TxPowerIndex. -/
def getHistoryCount (req : HandleRequest) : Int :=
  getHistoryCountLoop req.TxPowerIndex 0 req.UplinkHistory

/-- Source function `getIdealTxPowerIndexAndDR`: the recursive step walk; returns
`(txPowerIndex, dr)`. -/
def getIdealTxPowerIndexAndDR (nStep txPowerIndex dr maxTxPowerIndex maxDR : Int) :
    Int × Int :=
  if nStep = 0 then
    (txPowerIndex, dr)
  else if 0 < nStep then
    if dr < maxDR then
      getIdealTxPowerIndexAndDR (nStep - 1) txPowerIndex (dr + 1) maxTxPowerIndex maxDR
    else if txPowerIndex < maxTxPowerIndex then
      getIdealTxPowerIndexAndDR (nStep - 1) (txPowerIndex + 1) dr maxTxPowerIndex maxDR
    else
      getIdealTxPowerIndexAndDR (nStep - 1) txPowerIndex dr maxTxPowerIndex maxDR
  else
    if txPowerIndex > 0 then
      getIdealTxPowerIndexAndDR (nStep + 1) (txPowerIndex - 1) dr maxTxPowerIndex maxDR
    else
      getIdealTxPowerIndexAndDR (nStep + 1) txPowerIndex dr maxTxPowerIndex maxDR
termination_by nStep.natAbs
decreasing_by all_goals omega

/-- Source function `getNbTrans`: clamps `currentNbTrans` to `1..3` and reads the table
row of the loss bucket. -/
def getNbTrans (currentNbTrans : Int) (pktLossRate : ℚ) : Option Int :=
  let currentNbTrans := if currentNbTrans < 1 then 1 else currentNbTrans
  let currentNbTrans := if currentNbTrans > 3 then 3 else currentNbTrans
  if pktLossRate < 5 then
    tableAt 0 (currentNbTrans - 1)
  else if pktLossRate < 10 then
    tableAt 1 (currentNbTrans - 1)
  else if pktLossRate < 30 then
    tableAt 2 (currentNbTrans - 1)
  else
    tableAt 3 (currentNbTrans - 1)

/-- Loop of `getPacketLossPercentage` from index `i` on: `lostPackets` and
`previousFCnt` are the two `uint32` variables; returns the final `lostPackets`. -/
def lostPacketsLoop (i : Nat) (lostPackets previousFCnt : Nat) :
    List UplinkMetaData → Nat
  | [] => lostPackets
  | m :: rest =>
    if i = 0 then
      lostPacketsLoop (i + 1) lostPackets m.FCnt rest
    else
      lostPacketsLoop (i + 1)
        (addU32 lostPackets (subU32 (subU32 m.FCnt previousFCnt) 1)) m.FCnt rest

/-- Source function `getPacketLossPercentage`, float32 operations read as exact;
`getPacketLossPercentageF32` is the rounded reading. -/
def getPacketLossPercentage (req : HandleRequest) : ℚ :=
  if (req.UplinkHistory.length : Int) < requiredHistoryCount then
    0
  else
    let lostPackets := lostPacketsLoop 0 0 0 req.UplinkHistory
    (lostPackets : ℚ) / (req.UplinkHistory.length : ℚ) * 100

/-- Source function `Handle` handles the ADR request; float32 operations are read as
exact here, `HandleF32` is the rounded reading. -/
def Handle (req : HandleRequest) : Option (HandleResponse × GoError) :=
  let resp : HandleResponse :=
    { DR := req.DR, TxPowerIndex := req.TxPowerIndex, NbTrans := req.NbTrans }
  if !req.ADR then
    some (resp, none)
  else
    let resp : HandleResponse :=
      if req.DR > req.MaxDR then { resp with DR := req.MaxDR } else resp
    match getNbTrans req.NbTrans (getPacketLossPercentage req) with
    | none => none
    | some nbTrans =>
      let resp : HandleResponse := { resp with NbTrans := nbTrans }
      if getHistoryCount req > requiredHistoryCount then
        let snrM := getMeanSNR req
        let snrMargin := snrM - req.RequiredSNRForDR - req.InstallationMargin
        let nStep := truncToInt (snrMargin / 3)
        let r := getIdealTxPowerIndexAndDR nStep resp.TxPowerIndex resp.DR
          req.MaxTxPowerIndex req.MaxDR
        some ({ resp with TxPowerIndex := r.1, DR := r.2 }, none)
      else
        some (resp, none)

/-- The history records taken at power index `txPowerIndex` (the records the spec calls
comparable with the current setting). -/
def recordsAtPower (txPowerIndex : Int) (history : List UplinkMetaData) :
    List UplinkMetaData :=
  history.filter (fun m => decide (m.TXPowerIndex = txPowerIndex))

/-- The arithmetic mean of a list of measurements, as the spec words it: the sum
divided by the number of measurements. -/
def arithmeticMean (xs : List ℚ) : ℚ := xs.sum / (xs.length : ℚ)

/-- The link margin of a request, as the spec words it: the mean of `MaxSNR` over the
records at the current power index, minus the required SNR and the installation
margin. -/
def snrMarginSpec (req : HandleRequest) : ℚ :=
  arithmeticMean ((recordsAtPower req.TxPowerIndex req.UplinkHistory).map
    (fun m => m.MaxSNR)) - req.RequiredSNRForDR - req.InstallationMargin

/-- A history of `n` records with frame counters `start, start+1, ...`, all with the
same SNR and power index. -/
def uniformHistory (start n : Nat) (snr : ℚ) (txPowerIndex : Int) :
    List UplinkMetaData :=
  (List.range n).map
    (fun i => { FCnt := start + i, MaxSNR := snr, TXPowerIndex := txPowerIndex })

/-- Scenario A of the spec: ADR disabled, DR 5, power index 2, NbTrans 1. -/
def scenarioA : HandleRequest :=
  { ADR := false, DR := 5, TxPowerIndex := 2, NbTrans := 1, MaxTxPowerIndex := 3,
    RequiredSNRForDR := 5, InstallationMargin := 2, MaxDR := 5, UplinkHistory := [] }

/-- Scenario B of the spec: ADR enabled, DR 7 above MaxDR 5, empty history. -/
def scenarioB : HandleRequest :=
  { ADR := true, DR := 7, TxPowerIndex := 0, NbTrans := 1, MaxTxPowerIndex := 3,
    RequiredSNRForDR := 5, InstallationMargin := 2, MaxDR := 5, UplinkHistory := [] }

/-- Scenario C of the spec: 11 records at power index 0, frame counters 0..10,
MaxSNR 20, required SNR 5, installation margin 2, DR 2, MaxDR 5, MaxTxPowerIndex 3. -/
def scenarioC : HandleRequest :=
  { ADR := true, DR := 2, TxPowerIndex := 0, NbTrans := 1, MaxTxPowerIndex := 3,
    RequiredSNRForDR := 5, InstallationMargin := 2, MaxDR := 5,
    UplinkHistory := uniformHistory 0 11 20 0 }

/-- Scenario D of the spec: scenario C with MaxSNR 5 in every record. -/
def scenarioD : HandleRequest :=
  { scenarioC with UplinkHistory := uniformHistory 0 11 5 0 }

/-- An ADR-disabled request whose DR 7 exceeds MaxDR 5. -/
def disabledAboveMaxDR : HandleRequest :=
  { scenarioA with DR := 7 }

/-- An ADR-disabled request whose NbTrans is 0. -/
def disabledNbTransZero : HandleRequest :=
  { scenarioA with NbTrans := 0 }

/-- Scenario C with only 5 of the 11 records at the current power index 0; the other 6
were taken at power index 1. Frame counters are 0..10 without a gap. -/
def mixedPowerHistory : HandleRequest :=
  { scenarioC with
    UplinkHistory := uniformHistory 0 5 20 0 ++ uniformHistory 5 6 20 1 }

/-- Scenario C with all 12 records taken at power index 1, none at the current index 0. -/
def noMatchingHistory : HandleRequest :=
  { scenarioC with UplinkHistory := uniformHistory 0 12 20 1 }

/-- Scenario B with NbTrans 7, outside `1..3`. -/
def enabledNbTransSeven : HandleRequest :=
  { scenarioB with NbTrans := 7 }

/-- The loss bucket of section 4.2 of the spec: row 0 for a loss below 5, row 1 below
10, row 2 below 30, row 3 from 30 on. -/
def lossBucket (p : ℚ) : Nat :=
  if p < 5 then 0 else if p < 10 then 1 else if p < 30 then 2 else 3

/-- The current retransmission count clamped to `1..3`, as the spec words it. -/
def clampNbTrans (currentNbTrans : Int) : Int := min (max currentNbTrans 1) 3

/-- The 4x3 table of section 4.2 of the spec, as a function of the row and the
column. -/
def nbTransTableSpec : Fin 4 → Fin 3 → Int
  | 0, 0 => 1 | 0, 1 => 1 | 0, 2 => 2
  | 1, 0 => 1 | 1, 1 => 2 | 1, 2 => 3
  | 2, 0 => 2 | 2, 1 => 3 | 2, 2 => 3
  | 3, 0 => 3 | 3, 1 => 3 | 3, 2 => 3

/-- Scenario E of the spec: three records with frame counters 0, 1, 3. -/
def scenarioE : HandleRequest :=
  { scenarioB with
    UplinkHistory :=
      [{ FCnt := 0, MaxSNR := 20, TXPowerIndex := 0 },
       { FCnt := 1, MaxSNR := 20, TXPowerIndex := 0 },
       { FCnt := 3, MaxSNR := 20, TXPowerIndex := 0 }] }

/-- One call of `getIdealTxPowerIndexAndDR` with `nStep ≠ 0` (lines 105-120 of
`main.go`): the `(nStep, txPowerIndex, dr)` passed to the recursive call. -/
def walkStep (maxTxPowerIndex maxDR : Int) (s : Int × Int × Int) : Int × Int × Int :=
  if 0 < s.1 then
    if s.2.2 < maxDR then
      (s.1 - 1, s.2.1, s.2.2 + 1)
    else if s.2.1 < maxTxPowerIndex then
      (s.1 - 1, s.2.1 + 1, s.2.2)
    else
      (s.1 - 1, s.2.1, s.2.2)
  else
    if s.2.1 > 0 then
      (s.1 + 1, s.2.1 - 1, s.2.2)
    else
      (s.1 + 1, s.2.1, s.2.2)

/-- The lost-packet count as section 4.1 of the spec words it: over the consecutive
pairs of records, a frame-counter delta larger than 1 counts `delta - 1` lost packets
and a delta of at most 1 (a duplicate or a regression included) counts nothing. -/
def lostPacketsSpec : List UplinkMetaData → Int
  | [] => 0
  | [_] => 0
  | a :: b :: rest =>
    (if (b.FCnt : Int) - (a.FCnt : Int) > 1 then (b.FCnt : Int) - (a.FCnt : Int) - 1
      else 0) + lostPacketsSpec (b :: rest)

/-- The frame counter of the last record of `l`, or `prev` when `l` is empty: the value
of `previousFCnt` when the loop over `l` ends. -/
def lastFCntFrom (prev : Nat) : List UplinkMetaData → Nat
  | [] => prev
  | m :: rest => lastFCntFrom m.FCnt rest

/-- A history of records at power index 0 and SNR 20 with the given frame counters. -/
def historyOfFCnts (fcnts : List Nat) : List UplinkMetaData :=
  fcnts.map (fun c => { FCnt := c, MaxSNR := 20, TXPowerIndex := 0 })

/-- Ten records ordered by non-decreasing frame counter, the first two with the same
counter: 0, 0, 1, 2, ..., 8. -/
def duplicateFCntHistory : HandleRequest :=
  { scenarioB with UplinkHistory := historyOfFCnts [0, 0, 1, 2, 3, 4, 5, 6, 7, 8] }

/-- Ten records whose frame counter decreases once, from 1 to 0, and then grows by 1:
1, 0, 1, 2, ..., 8. -/
def regressionHistory : HandleRequest :=
  { scenarioB with UplinkHistory := historyOfFCnts [1, 0, 1, 2, 3, 4, 5, 6, 7, 8] }

/-- Ten records with a gap: 0, 1, 2, 5, 6, 7, 8, 9, 10, 11 (two packets lost). -/
def gapHistory : HandleRequest :=
  { scenarioB with UplinkHistory := historyOfFCnts [0, 1, 2, 5, 6, 7, 8, 9, 10, 11] }

/-- Ten records with a duplicate and a regression in the middle, first counter 0 and
last counter 9: 0, 1, 1, 5, 3, 4, 6, 7, 8, 9. -/
def cancelledRegressionHistory : HandleRequest :=
  { scenarioB with UplinkHistory := historyOfFCnts [0, 1, 1, 5, 3, 4, 6, 7, 8, 9] }

/-- The first record of `cancelledRegressionHistory`. -/
def cancelledRegressionFirst : UplinkMetaData :=
  { FCnt := 0, MaxSNR := 20, TXPowerIndex := 0 }

/-- The records of `cancelledRegressionHistory` after the first. -/
def cancelledRegressionRest : List UplinkMetaData :=
  historyOfFCnts [1, 1, 5, 3, 4, 6, 7, 8, 9]

/-- Rounding of a rational to the nearest integer, ties to the even integer. -/
def roundToEven (t : ℚ) : Int :=
  if t - (⌊t⌋ : ℚ) < 1 / 2 then ⌊t⌋
  else if 1 / 2 < t - (⌊t⌋ : ℚ) then ⌊t⌋ + 1
  else if ⌊t⌋ % 2 = 0 then ⌊t⌋ else ⌊t⌋ + 1

/-- The binary exponent of the float32 nearest to `x`: `⌊log2 |x|⌋`, and -126 in the
subnormal range. -/
def f32Exponent (x : ℚ) : Int := max (Int.log 2 |x|) (-126)

/-- The float32 value of a real result: a significand of 24 bits, rounded to nearest,
ties to even. Results beyond the largest float32, infinities and NaN are not
represented. -/
def roundF32 (x : ℚ) : ℚ :=
  if x = 0 then 0
  else (roundToEven (x / 2 ^ (f32Exponent x - 23)) : ℚ) * 2 ^ (f32Exponent x - 23)

/-- The float32 sum `a + b`. -/
def addF32 (a b : ℚ) : ℚ := roundF32 (a + b)

/-- The float32 difference `a - b`. -/
def subF32 (a b : ℚ) : ℚ := roundF32 (a - b)

/-- The float32 product `a * b`. -/
def mulF32 (a b : ℚ) : ℚ := roundF32 (a * b)

/-- The float32 quotient `a / b`. -/
def divF32 (a b : ℚ) : ℚ := roundF32 (a / b)

/-- Loop of `getMeanSNR` with every float32 addition rounded. -/
def getMeanSNRLoopF32 (txPowerIndex : Int) (sumSNR countSNR : ℚ) :
    List UplinkMetaData → ℚ × ℚ
  | [] => (sumSNR, countSNR)
  | m :: rest =>
    if txPowerIndex = m.TXPowerIndex then
      getMeanSNRLoopF32 txPowerIndex (addF32 sumSNR m.MaxSNR) (addF32 countSNR 1) rest
    else
      getMeanSNRLoopF32 txPowerIndex sumSNR countSNR rest

/-- Source function `getMeanSNR` in float32: the rounded quotient of the rounded sums.
(With `countSNR = 0` the Go float division gives NaN; here the quotient is `0`.
`HandleF32` only calls it with `countSNR > 10`.) -/
def getMeanSNRF32 (req : HandleRequest) : ℚ :=
  let acc := getMeanSNRLoopF32 req.TxPowerIndex 0 0 req.UplinkHistory
  divF32 acc.1 acc.2

/-- Source function `getPacketLossPercentage` in float32: both conversions, the
quotient and the product are rounded. -/
def getPacketLossPercentageF32 (req : HandleRequest) : ℚ :=
  if (req.UplinkHistory.length : Int) < requiredHistoryCount then
    0
  else
    let lostPackets := lostPacketsLoop 0 0 0 req.UplinkHistory
    mulF32 (divF32 (roundF32 (lostPackets : ℚ)) (roundF32 (req.UplinkHistory.length : ℚ)))
      100

/-- Source function `Handle` with every float32 operation rounded as the hardware
rounds it: the mean, both subtractions of the margin and the division by 3. -/
def HandleF32 (req : HandleRequest) : Option (HandleResponse × GoError) :=
  let resp : HandleResponse :=
    { DR := req.DR, TxPowerIndex := req.TxPowerIndex, NbTrans := req.NbTrans }
  if !req.ADR then
    some (resp, none)
  else
    let resp : HandleResponse :=
      if req.DR > req.MaxDR then { resp with DR := req.MaxDR } else resp
    match getNbTrans req.NbTrans (getPacketLossPercentageF32 req) with
    | none => none
    | some nbTrans =>
      let resp : HandleResponse := { resp with NbTrans := nbTrans }
      if getHistoryCount req > requiredHistoryCount then
        let snrM := getMeanSNRF32 req
        let snrMargin := subF32 (subF32 snrM req.RequiredSNRForDR) req.InstallationMargin
        let nStep := truncToInt (divF32 snrMargin 3)
        let r := getIdealTxPowerIndexAndDR nStep resp.TxPowerIndex resp.DR
          req.MaxTxPowerIndex req.MaxDR
        some ({ resp with TxPowerIndex := r.1, DR := r.2 }, none)
      else
        some (resp, none)

/-- The float32 running sum of a list of measurements, added in order from 0. -/
def sumF32 (xs : List ℚ) : ℚ := xs.foldl addF32 0

/-- The float32 counter after `n` increments from 0; it is `n` up to `2^24`. -/
def countF32 (n : Nat) : ℚ := (fun c => addF32 c 1)^[n] 0

/-- The mean of a list of measurements as float32 computes it: the running float32
sum divided in float32 by the float32 count. -/
def meanF32 (xs : List ℚ) : ℚ := divF32 (sumF32 xs) (countF32 xs.length)

/-- The link margin of a request in float32: the float32 mean of `MaxSNR` over the
records at the current power index, minus the required SNR, minus the installation
margin, each subtraction rounded. -/
def snrMarginF32 (req : HandleRequest) : ℚ :=
  subF32 (subF32 (meanF32 ((recordsAtPower req.TxPowerIndex req.UplinkHistory).map
    (fun m => m.MaxSNR))) req.RequiredSNRForDR) req.InstallationMargin

/-- The number of steps in float32: the float32 margin divided in float32 by 3,
truncated toward zero. -/
def nStepF32 (req : HandleRequest) : Int := truncToInt (divF32 (snrMarginF32 req) 3)

/-- Scenario C with the measurement `10 - 2^-20` followed by ten measurements of 10, all
at the current power index 0: the exact margin is below 3, the float32 margin is 3. -/
def roundingHistory : HandleRequest :=
  { scenarioC with
    UplinkHistory :=
      { FCnt := 0, MaxSNR := 10 - 1 / 2 ^ 20, TXPowerIndex := 0 } ::
        uniformHistory 1 10 10 0 }

/-- The float32 nearest to -2.7. -/
def f32Minus2p7 : ℚ := -11324621 / 4194304

/-- The float32 nearest to -3.1. -/
def f32Minus3p1 : ℚ := -6501171 / 2097152

/-- A history at power index `txPowerIndex` with the given measurements, in order, and
frame counters `start, start+1, ...`. -/
def historyOfSNRs (start : Nat) (txPowerIndex : Int) : List ℚ → List UplinkMetaData
  | [] => []
  | snr :: rest =>
    { FCnt := start, MaxSNR := snr, TXPowerIndex := txPowerIndex } ::
      historyOfSNRs (start + 1) txPowerIndex rest

/-- Twelve records at the current power index 2, three with the float32 of -2.7 and
nine with the float32 of -3.1, required SNR -10 and installation margin 10: the exact
margin is above -3, the float32 margin is -3. -/
def negativeRoundingHistory : HandleRequest :=
  { ADR := true, DR := 2, TxPowerIndex := 2, NbTrans := 1, MaxTxPowerIndex := 3,
    RequiredSNRForDR := -10, InstallationMargin := 10, MaxDR := 5,
    UplinkHistory := historyOfSNRs 0 2
      [f32Minus2p7, f32Minus2p7, f32Minus2p7, f32Minus3p1, f32Minus3p1, f32Minus3p1,
       f32Minus3p1, f32Minus3p1, f32Minus3p1, f32Minus3p1, f32Minus3p1, f32Minus3p1] }

/-! ## Auxiliary lemmas -/

theorem truncToInt_of_nonneg (x : ℚ) (hx : 0 ≤ x) : truncToInt x = ⌊x⌋ := by
  unfold truncToInt
  rw [Rat.floor_def]
  exact Int.tdiv_eq_ediv (Rat.num_nonneg.mpr hx) (Int.natCast_nonneg _)

theorem truncToInt_neg (x : ℚ) : truncToInt (-x) = - truncToInt x := by
  unfold truncToInt
  simp [Int.neg_tdiv]

theorem truncToInt_of_nonpos (x : ℚ) (hx : x ≤ 0) : truncToInt x = ⌈x⌉ := by
  have h := truncToInt_neg (-x)
  rw [neg_neg] at h
  rw [h, truncToInt_of_nonneg (-x) (by linarith), Int.floor_neg, neg_neg]

theorem truncToInt_eq_zero (x : ℚ) (h1 : -1 < x) (h2 : x < 1) : truncToInt x = 0 := by
  rcases le_total 0 x with hx | hx
  · rw [truncToInt_of_nonneg x hx, Int.floor_eq_iff]
    constructor
    · simpa using hx
    · simpa using h2
  · rw [truncToInt_of_nonpos x hx, Int.ceil_eq_iff]
    constructor
    · simpa using h1
    · simpa using hx

theorem truncToInt_eq_of_nonneg_bounds (x : ℚ) (n : Int) (h0 : 0 ≤ n) (h1 : (n : ℚ) ≤ x)
    (h2 : x < n + 1) : truncToInt x = n := by
  have hx : (0 : ℚ) ≤ x := le_trans (by exact_mod_cast h0) h1
  rw [truncToInt_of_nonneg x hx, Int.floor_eq_iff]
  exact ⟨h1, h2⟩

theorem getHistoryCountLoop_eq (txPowerIndex : Int) (history : List UplinkMetaData) :
    ∀ count : Int, getHistoryCountLoop txPowerIndex count history =
      count + ((recordsAtPower txPowerIndex history).length : Int) := by
  induction history with
  | nil => intro count; simp [getHistoryCountLoop, recordsAtPower]
  | cons m rest ih =>
    intro count
    by_cases h : txPowerIndex = m.TXPowerIndex
    · have h2 : m.TXPowerIndex = txPowerIndex := h.symm
      have ih2 := ih (count + 1)
      simp only [recordsAtPower] at ih2 ⊢
      simp only [getHistoryCountLoop, if_pos h, ih2, List.filter_cons, h2, decide_True,
        if_true, List.length_cons]
      push_cast
      ring
    · have h2 : ¬ m.TXPowerIndex = txPowerIndex := fun e => h e.symm
      have ih2 := ih count
      simp only [recordsAtPower] at ih2 ⊢
      simp only [getHistoryCountLoop, if_neg h, ih2, List.filter_cons, h2, decide_False]
      simp

theorem getHistoryCount_eq (req : HandleRequest) :
    getHistoryCount req =
      ((recordsAtPower req.TxPowerIndex req.UplinkHistory).length : Int) := by
  simp [getHistoryCount, getHistoryCountLoop_eq]

theorem getMeanSNRLoop_eq (txPowerIndex : Int) (history : List UplinkMetaData) :
    ∀ sumSNR countSNR : ℚ, getMeanSNRLoop txPowerIndex sumSNR countSNR history =
      (sumSNR + ((recordsAtPower txPowerIndex history).map (fun m => m.MaxSNR)).sum,
       countSNR + ((recordsAtPower txPowerIndex history).length : ℚ)) := by
  induction history with
  | nil => intro s c; simp [getMeanSNRLoop, recordsAtPower]
  | cons m rest ih =>
    intro s c
    by_cases h : txPowerIndex = m.TXPowerIndex
    · have h2 : m.TXPowerIndex = txPowerIndex := h.symm
      have ih2 := ih (s + m.MaxSNR) (c + 1)
      simp only [recordsAtPower] at ih2 ⊢
      simp only [getMeanSNRLoop, if_pos h, ih2, List.filter_cons, h2, decide_True,
        if_true, List.length_cons, List.map_cons, List.sum_cons]
      push_cast
      congr 1 <;> ring
    · have h2 : ¬ m.TXPowerIndex = txPowerIndex := fun e => h e.symm
      have ih2 := ih s c
      simp only [recordsAtPower] at ih2 ⊢
      simp only [getMeanSNRLoop, if_neg h, ih2, List.filter_cons, h2, decide_False]
      simp

theorem getMeanSNR_eq (req : HandleRequest) :
    getMeanSNR req =
      arithmeticMean ((recordsAtPower req.TxPowerIndex req.UplinkHistory).map
        (fun m => m.MaxSNR)) := by
  simp [getMeanSNR, getMeanSNRLoop_eq, arithmeticMean]

theorem recordsAtPower_length_le (txPowerIndex : Int) (history : List UplinkMetaData) :
    (recordsAtPower txPowerIndex history).length ≤ history.length :=
  List.length_filter_le _ _

theorem recordsAtPower_eq_nil (txPowerIndex : Int) (history : List UplinkMetaData)
    (h : ∀ m ∈ history, m.TXPowerIndex ≠ txPowerIndex) :
    recordsAtPower txPowerIndex history = [] := by
  unfold recordsAtPower
  rw [List.filter_eq_nil_iff]
  intro m hm
  simpa using h m hm

theorem getNbTrans_some (currentNbTrans : Int) (pktLossRate : ℚ) :
    ∃ n : Int, getNbTrans currentNbTrans pktLossRate = some n ∧ 1 ≤ n ∧ n ≤ 3 := by
  have hc : ∃ c : Int, (if (if currentNbTrans < 1 then 1 else currentNbTrans) > 3 then 3
      else (if currentNbTrans < 1 then 1 else currentNbTrans)) = c ∧
      (c = 1 ∨ c = 2 ∨ c = 3) := by
    refine ⟨_, rfl, ?_⟩
    split_ifs <;> omega
  obtain ⟨c, hceq, hcs⟩ := hc
  simp only [getNbTrans, hceq]
  rcases hcs with rfl | rfl | rfl <;> split_ifs <;>
    simp [tableAt, indexInt, pktLossRateTable]

theorem getNbTrans_low_loss (currentNbTrans : Int) (pktLossRate : ℚ)
    (h : pktLossRate < 5) :
    getNbTrans currentNbTrans pktLossRate =
      some (if currentNbTrans ≤ 2 then 1 else 2) := by
  have hc : ∃ c : Int, (if (if currentNbTrans < 1 then 1 else currentNbTrans) > 3 then 3
      else (if currentNbTrans < 1 then 1 else currentNbTrans)) = c ∧
      ((c = 1 ∧ currentNbTrans ≤ 2) ∨ (c = 2 ∧ currentNbTrans ≤ 2) ∨
        (c = 3 ∧ ¬ currentNbTrans ≤ 2)) := by
    refine ⟨_, rfl, ?_⟩
    split_ifs <;> omega
  obtain ⟨c, hceq, hcs⟩ := hc
  simp only [getNbTrans, hceq, if_pos h]
  rcases hcs with ⟨rfl, h2⟩ | ⟨rfl, h2⟩ | ⟨rfl, h2⟩ <;>
    simp [tableAt, indexInt, pktLossRateTable, h2]

/-- An invariant of the step walk: a property of `(txPowerIndex, dr)` preserved by each
of the three changes the walk can make holds of the result. -/
theorem getIdealTxPowerIndexAndDR_invariant (P : Int → Int → Prop)
    (maxTxPowerIndex maxDR : Int)
    (hDR : ∀ tx dr, P tx dr → dr < maxDR → P tx (dr + 1))
    (hUp : ∀ tx dr, P tx dr → ¬ dr < maxDR → tx < maxTxPowerIndex → P (tx + 1) dr)
    (hDown : ∀ tx dr, P tx dr → 0 < tx → P (tx - 1) dr) :
    ∀ (k : Nat) (nStep tx dr : Int), nStep.natAbs = k → P tx dr →
      P (getIdealTxPowerIndexAndDR nStep tx dr maxTxPowerIndex maxDR).1
        (getIdealTxPowerIndexAndDR nStep tx dr maxTxPowerIndex maxDR).2 := by
  intro k
  induction k with
  | zero =>
    intro nStep tx dr hk hP
    have h0 : nStep = 0 := by omega
    rw [getIdealTxPowerIndexAndDR, if_pos h0]
    exact hP
  | succ k ih =>
    intro nStep tx dr hk hP
    have h0 : ¬ nStep = 0 := by omega
    rw [getIdealTxPowerIndexAndDR, if_neg h0]
    split_ifs with hpos hdr htx htx
    · exact ih _ _ _ (by omega) (hDR _ _ hP hdr)
    · exact ih _ _ _ (by omega) (hUp _ _ hP hdr htx)
    · exact ih _ _ _ (by omega) hP
    · exact ih _ _ _ (by omega) (hDown _ _ hP htx)
    · exact ih _ _ _ (by omega) hP

theorem getIdealTxPowerIndexAndDR_zero (tx dr maxTxPowerIndex maxDR : Int) :
    getIdealTxPowerIndexAndDR 0 tx dr maxTxPowerIndex maxDR = (tx, dr) := by
  rw [getIdealTxPowerIndexAndDR, if_pos rfl]

theorem Handle_disabled (req : HandleRequest) (hADR : req.ADR = false) :
    Handle req =
      some ({ DR := req.DR, TxPowerIndex := req.TxPowerIndex, NbTrans := req.NbTrans },
        none) := by
  simp [Handle, hADR]

/-- The shape of the response of an ADR-enabled request: the retransmission count is
the selector's, and `(TxPowerIndex, DR)` is the step walk's result when more than 10
records are at the current power index, the clamped request values otherwise. -/
theorem Handle_enabled (req : HandleRequest) (hADR : req.ADR = true) :
    ∃ nbTrans : Int,
      getNbTrans req.NbTrans (getPacketLossPercentage req) = some nbTrans ∧
      1 ≤ nbTrans ∧ nbTrans ≤ 3 ∧
      Handle req = some (
        (if 10 < (recordsAtPower req.TxPowerIndex req.UplinkHistory).length then
          { DR := (getIdealTxPowerIndexAndDR (truncToInt (snrMarginSpec req / 3))
              req.TxPowerIndex (min req.DR req.MaxDR) req.MaxTxPowerIndex req.MaxDR).2,
            TxPowerIndex := (getIdealTxPowerIndexAndDR
              (truncToInt (snrMarginSpec req / 3))
              req.TxPowerIndex (min req.DR req.MaxDR) req.MaxTxPowerIndex req.MaxDR).1,
            NbTrans := nbTrans }
        else
          { DR := min req.DR req.MaxDR, TxPowerIndex := req.TxPowerIndex,
            NbTrans := nbTrans }), none) := by
  obtain ⟨n, hn, h1, h3⟩ := getNbTrans_some req.NbTrans (getPacketLossPercentage req)
  refine ⟨n, hn, h1, h3, ?_⟩
  have hmin : (if req.DR > req.MaxDR then req.MaxDR else req.DR) = min req.DR req.MaxDR := by
    split_ifs with h
    · exact (min_eq_right (le_of_lt h)).symm
    · exact (min_eq_left (not_lt.mp h)).symm
  have hcount : (getHistoryCount req > requiredHistoryCount) ↔
      10 < (recordsAtPower req.TxPowerIndex req.UplinkHistory).length := by
    rw [getHistoryCount_eq, requiredHistoryCount]
    constructor <;> intro h <;> omega
  unfold Handle
  simp only [hADR, hn, Bool.not_true, Bool.false_eq_true, if_false]
  by_cases hc : 10 < (recordsAtPower req.TxPowerIndex req.UplinkHistory).length
  · rw [if_pos (hcount.mpr hc), if_pos hc]
    have hm : getMeanSNR req - req.RequiredSNRForDR - req.InstallationMargin =
        snrMarginSpec req := by
      rw [getMeanSNR_eq, snrMarginSpec]
    by_cases hd : req.DR > req.MaxDR
    · simp only [if_pos hd] at hmin
      simp only [if_pos hd, hm, ← hmin]
    · simp only [if_neg hd] at hmin
      simp only [if_neg hd, hm, ← hmin]
  · rw [if_neg (fun h => hc (hcount.mp h)), if_neg hc]
    by_cases hd : req.DR > req.MaxDR
    · simp only [if_pos hd] at hmin
      simp only [if_pos hd, ← hmin]
    · simp only [if_neg hd] at hmin
      simp only [if_neg hd, ← hmin]

/-- The response of an ADR-enabled request with at most 10 records at the current power
index: the step walk is skipped. -/
theorem Handle_enabled_no_step (req : HandleRequest) (hADR : req.ADR = true)
    (hCount : (recordsAtPower req.TxPowerIndex req.UplinkHistory).length ≤ 10) :
    ∃ nbTrans : Int,
      getNbTrans req.NbTrans (getPacketLossPercentage req) = some nbTrans ∧
      Handle req =
        some ({ DR := min req.DR req.MaxDR, TxPowerIndex := req.TxPowerIndex,
                NbTrans := nbTrans }, none) := by
  obtain ⟨n, hn, _, _, hH⟩ := Handle_enabled req hADR
  rw [if_neg (by omega)] at hH
  exact ⟨n, hn, hH⟩

theorem snrMarginSpec_scenarioC : snrMarginSpec scenarioC = 13 := by
  simp [snrMarginSpec, scenarioC, arithmeticMean, recordsAtPower, uniformHistory,
    List.range, List.range.loop]
  norm_num

theorem snrMarginSpec_scenarioD : snrMarginSpec scenarioD = -2 := by
  simp [snrMarginSpec, scenarioD, scenarioC, arithmeticMean, recordsAtPower,
    uniformHistory, List.range, List.range.loop]
  norm_num

theorem snrMarginSpec_mixedPowerHistory : snrMarginSpec mixedPowerHistory = 13 := by
  simp [snrMarginSpec, mixedPowerHistory, scenarioC, arithmeticMean, recordsAtPower,
    uniformHistory, List.range, List.range.loop]
  norm_num

theorem truncToInt_thirteen_thirds : truncToInt (13 / 3) = 4 :=
  truncToInt_eq_of_nonneg_bounds _ 4 (by norm_num) (by norm_num) (by norm_num)

theorem getPacketLossPercentage_mixedPowerHistory :
    getPacketLossPercentage mixedPowerHistory = 0 := by
  have h : lostPacketsLoop 0 0 0 mixedPowerHistory.UplinkHistory = 0 := by decide
  simp [getPacketLossPercentage, h]

theorem getPacketLossPercentage_short (req : HandleRequest)
    (h : req.UplinkHistory.length < 10) : getPacketLossPercentage req = 0 := by
  have h2 : (req.UplinkHistory.length : Int) < requiredHistoryCount := by
    rw [requiredHistoryCount]; omega
  simp [getPacketLossPercentage, h2]

theorem lossBucket_lt (p : ℚ) : lossBucket p < 4 := by
  unfold lossBucket
  split_ifs <;> omega

theorem clampNbTrans_range (c : Int) : 1 ≤ clampNbTrans c ∧ clampNbTrans c ≤ 3 := by
  unfold clampNbTrans
  omega

theorem getNbTrans_clamp (c : Int) :
    (if (if c < 1 then 1 else c) > 3 then 3 else (if c < 1 then 1 else c)) =
      clampNbTrans c := by
  unfold clampNbTrans
  split_ifs <;> omega

/-- The selector in closed form: the table entry at the loss bucket and the clamped
count. -/
theorem getNbTrans_eq_table (c : Int) (p : ℚ) (hb : lossBucket p < 4)
    (hc : (clampNbTrans c - 1).toNat < 3) :
    getNbTrans c p = some (nbTransTableSpec ⟨lossBucket p, hb⟩
      ⟨(clampNbTrans c - 1).toNat, hc⟩) := by
  have hr := clampNbTrans_range c
  have hcases : clampNbTrans c = 1 ∨ clampNbTrans c = 2 ∨ clampNbTrans c = 3 := by omega
  simp only [getNbTrans, getNbTrans_clamp]
  generalize clampNbTrans c = k at hc hcases ⊢
  unfold lossBucket at hb ⊢
  rcases hcases with rfl | rfl | rfl <;> split_ifs <;>
    simp [tableAt, indexInt, pktLossRateTable, nbTransTableSpec]

theorem lossBucket_mono (p1 p2 : ℚ) (h : p1 ≤ p2) : lossBucket p1 ≤ lossBucket p2 := by
  unfold lossBucket
  split_ifs <;> first | omega | (exfalso; linarith)

theorem lossBucket_high (p : ℚ) (h : 30 ≤ p) : lossBucket p = 3 := by
  unfold lossBucket
  rw [if_neg (by linarith), if_neg (by linarith), if_neg (by linarith)]

theorem nbTransTableSpec_mono :
    ∀ (i j : Fin 4) (k : Fin 3), i ≤ j → nbTransTableSpec i k ≤ nbTransTableSpec j k := by
  decide

theorem nbTransTableSpec_le_three :
    ∀ (i : Fin 4) (k : Fin 3), 1 ≤ nbTransTableSpec i k ∧ nbTransTableSpec i k ≤ 3 := by
  decide

theorem nbTransTableSpec_last_row : ∀ k : Fin 3, nbTransTableSpec 3 k = 3 := by
  decide

/-- The positive walk in closed form, by induction on the number of steps. -/
theorem getIdealTxPowerIndexAndDR_pos (maxTxPowerIndex maxDR : Int) :
    ∀ (k : Nat) (tx dr : Int), dr ≤ maxDR → tx ≤ maxTxPowerIndex →
      getIdealTxPowerIndexAndDR (k : Int) tx dr maxTxPowerIndex maxDR =
        (min (tx + max 0 ((k : Int) - (maxDR - dr))) maxTxPowerIndex,
          min (dr + (k : Int)) maxDR) := by
  intro k
  induction k with
  | zero =>
    intro tx dr hdr htx
    rw [Nat.cast_zero, getIdealTxPowerIndexAndDR_zero]
    refine Prod.ext ?_ ?_ <;> simp only <;> omega
  | succ k ih =>
    intro tx dr hdr htx
    have h0 : ¬ ((k + 1 : Nat) : Int) = 0 := by omega
    have hpos : 0 < ((k + 1 : Nat) : Int) := by omega
    have hsub : ((k + 1 : Nat) : Int) - 1 = (k : Int) := by omega
    rw [getIdealTxPowerIndexAndDR, if_neg h0, if_pos hpos, hsub]
    split_ifs with h1 h2
    · rw [ih tx (dr + 1) (by omega) htx]
      refine Prod.ext ?_ ?_ <;> simp only <;> omega
    · rw [ih (tx + 1) dr hdr (by omega)]
      refine Prod.ext ?_ ?_ <;> simp only <;> omega
    · rw [ih tx dr hdr htx]
      refine Prod.ext ?_ ?_ <;> simp only <;> omega

/-- The negative walk in closed form, by induction on the number of steps. -/
theorem getIdealTxPowerIndexAndDR_neg (maxTxPowerIndex maxDR : Int) :
    ∀ (k : Nat) (tx dr : Int),
      getIdealTxPowerIndexAndDR (-(k : Int)) tx dr maxTxPowerIndex maxDR =
        (if 0 ≤ tx then max (tx - (k : Int)) 0 else tx, dr) := by
  intro k
  induction k with
  | zero =>
    intro tx dr
    rw [Nat.cast_zero, neg_zero, getIdealTxPowerIndexAndDR_zero]
    refine Prod.ext ?_ rfl
    simp only
    split_ifs <;> omega
  | succ k ih =>
    intro tx dr
    have h0 : ¬ (-((k + 1 : Nat) : Int)) = 0 := by omega
    have hpos : ¬ 0 < (-((k + 1 : Nat) : Int)) := by omega
    have hadd : (-((k + 1 : Nat) : Int)) + 1 = -(k : Int) := by omega
    rw [getIdealTxPowerIndexAndDR, if_neg h0, if_neg hpos, hadd]
    split_ifs with h1 h2 h2
    all_goals rw [ih]
    all_goals refine Prod.ext ?_ rfl
    all_goals simp only
    all_goals split_ifs <;> omega

theorem walkStep_natAbs (maxTxPowerIndex maxDR : Int) (s : Int × Int × Int)
    (h : s.1 ≠ 0) : (walkStep maxTxPowerIndex maxDR s).1.natAbs + 1 = s.1.natAbs := by
  unfold walkStep
  split_ifs <;> simp only <;> omega

theorem getIdealTxPowerIndexAndDR_step (nStep tx dr maxTxPowerIndex maxDR : Int)
    (h : nStep ≠ 0) :
    getIdealTxPowerIndexAndDR nStep tx dr maxTxPowerIndex maxDR =
      getIdealTxPowerIndexAndDR (walkStep maxTxPowerIndex maxDR (nStep, tx, dr)).1
        (walkStep maxTxPowerIndex maxDR (nStep, tx, dr)).2.1
        (walkStep maxTxPowerIndex maxDR (nStep, tx, dr)).2.2 maxTxPowerIndex maxDR := by
  rw [getIdealTxPowerIndexAndDR, if_neg h]
  unfold walkStep
  simp only
  split_ifs <;> rfl

theorem walkStep_iterate (maxTxPowerIndex maxDR : Int) :
    ∀ (k : Nat) (nStep tx dr : Int), nStep.natAbs = k →
      (walkStep maxTxPowerIndex maxDR)^[k] (nStep, tx, dr) =
        (0, getIdealTxPowerIndexAndDR nStep tx dr maxTxPowerIndex maxDR) ∧
      ∀ j : Nat, j < k → ((walkStep maxTxPowerIndex maxDR)^[j] (nStep, tx, dr)).1 ≠ 0 := by
  intro k
  induction k with
  | zero =>
    intro nStep tx dr hk
    have h0 : nStep = 0 := by omega
    subst h0
    refine ⟨?_, fun j hj => absurd hj (Nat.not_lt_zero j)⟩
    rw [Function.iterate_zero, id_eq, getIdealTxPowerIndexAndDR_zero]
  | succ k ih =>
    intro nStep tx dr hk
    have h0 : nStep ≠ 0 := by omega
    have hdec := walkStep_natAbs maxTxPowerIndex maxDR (nStep, tx, dr) h0
    have hk2 : (walkStep maxTxPowerIndex maxDR (nStep, tx, dr)).1.natAbs = k := by
      simp only at hdec
      omega
    obtain ⟨hres, hnz⟩ := ih _ (walkStep maxTxPowerIndex maxDR (nStep, tx, dr)).2.1
      (walkStep maxTxPowerIndex maxDR (nStep, tx, dr)).2.2 hk2
    constructor
    · rw [Function.iterate_succ_apply, getIdealTxPowerIndexAndDR_step _ _ _ _ _ h0]
      exact hres
    · intro j hj
      cases j with
      | zero => simpa using h0
      | succ j =>
        rw [Function.iterate_succ_apply]
        exact hnz j (by omega)

theorem u32Mod_eq : u32Mod = 4294967296 := by decide

theorem subU32_cast (a b : Nat) :
    ((subU32 a b : Nat) : Int) = ((a : Int) - (b : Int)) % 4294967296 := by
  simp only [subU32, u32Mod_eq]
  omega

theorem addU32_cast (a b : Nat) :
    ((addU32 a b : Nat) : Int) = ((a : Int) + (b : Int)) % 4294967296 := by
  simp only [addU32, u32Mod_eq]
  omega

theorem addU32_lt (a b : Nat) : addU32 a b < 4294967296 := by
  simp only [addU32, u32Mod_eq]
  omega

/-- The accumulator after the loop, from any index after the first: the sum telescopes
modulo `2^32`. -/
theorem lostPacketsLoop_succ_cast (l : List UplinkMetaData) :
    ∀ (i lostPackets previousFCnt : Nat), lostPackets < 4294967296 →
      ((lostPacketsLoop (i + 1) lostPackets previousFCnt l : Nat) : Int) =
        ((lostPackets : Int) + (lastFCntFrom previousFCnt l : Int) - (previousFCnt : Int)
          - (l.length : Int)) % 4294967296 := by
  induction l with
  | nil =>
    intro i lost prev hlost
    simp only [lostPacketsLoop, lastFCntFrom, List.length_nil]
    omega
  | cons m rest ih =>
    intro i lost prev hlost
    have hi : ¬ (i + 1 = 0) := by omega
    simp only [lostPacketsLoop, if_neg hi, lastFCntFrom, List.length_cons]
    rw [ih (i + 1) _ m.FCnt (addU32_lt _ _), addU32_cast, subU32_cast, subU32_cast]
    push_cast
    omega

theorem lostPacketsLoop_cons_cast (first : UplinkMetaData) (rest : List UplinkMetaData) :
    ((lostPacketsLoop 0 0 0 (first :: rest) : Nat) : Int) =
      ((lastFCntFrom first.FCnt rest : Int) - (first.FCnt : Int) - (rest.length : Int))
        % 4294967296 := by
  simp only [lostPacketsLoop, if_true]
  rw [lostPacketsLoop_succ_cast rest 0 0 first.FCnt (by omega)]
  push_cast
  congr 1
  omega

theorem lastFCntFrom_eq_getLast (rest : List UplinkMetaData) :
    ∀ (first : UplinkMetaData) (h : first :: rest ≠ []),
      lastFCntFrom first.FCnt rest = ((first :: rest).getLast h).FCnt := by
  induction rest with
  | nil => intro first h; rfl
  | cons m rest ih =>
    intro first h
    rw [lastFCntFrom, ih m (List.cons_ne_nil _ _), List.getLast_cons_cons]

theorem lastFCntFrom_append (l1 : List UplinkMetaData) :
    ∀ (prev : Nat) (m : UplinkMetaData) (l2 : List UplinkMetaData),
      lastFCntFrom prev (l1 ++ m :: l2) = lastFCntFrom m.FCnt l2 := by
  induction l1 with
  | nil => intro prev m l2; rfl
  | cons x l1 ih =>
    intro prev m l2
    rw [List.cons_append, lastFCntFrom, ih]

/-- Under strictly increasing frame counters the spec's count telescopes, and it is
not negative. -/
theorem lostPacketsSpec_strict (rest : List UplinkMetaData) :
    ∀ first : UplinkMetaData,
      List.Chain' (fun a b : UplinkMetaData => a.FCnt < b.FCnt) (first :: rest) →
      lostPacketsSpec (first :: rest) =
        (lastFCntFrom first.FCnt rest : Int) - (first.FCnt : Int) - (rest.length : Int) ∧
      first.FCnt + rest.length ≤ lastFCntFrom first.FCnt rest := by
  induction rest with
  | nil =>
    intro first _
    simp [lostPacketsSpec, lastFCntFrom]
  | cons m rest ih =>
    intro first hchain
    rw [List.chain'_cons] at hchain
    obtain ⟨hlt, hrest⟩ := hchain
    obtain ⟨hspec, hle⟩ := ih m hrest
    simp only [lostPacketsSpec, lastFCntFrom, List.length_cons, hspec]
    constructor
    · split_ifs <;> push_cast <;> omega
    · omega

theorem getPacketLossPercentage_long (req : HandleRequest)
    (hLen : 10 ≤ req.UplinkHistory.length) :
    getPacketLossPercentage req =
      ((lostPacketsLoop 0 0 0 req.UplinkHistory : Nat) : ℚ) /
        (req.UplinkHistory.length : ℚ) * 100 := by
  have h2 : ¬ (req.UplinkHistory.length : Int) < requiredHistoryCount := by
    rw [requiredHistoryCount]; omega
  simp only [getPacketLossPercentage, if_neg h2]

theorem lostPackets_split_arith (X Y Z P : Nat) (L F A B n1 n2 : Int)
    (hX : (X : Int) = (L - F - (n1 + n2 + 1)) % 4294967296)
    (hY : (Y : Int) = (A - F - n1) % 4294967296)
    (hZ : (Z : Int) = (L - B - n2) % 4294967296)
    (hP : (P : Int) = ((B - A) % 4294967296 - 1) % 4294967296) :
    X = (Y + P + Z) % 4294967296 := by
  omega

/-- The accumulator for a history cut at a consecutive pair `a, b`: the count of the
records up to `a`, plus what the loop adds for the pair, plus the count from `b` on,
modulo `2^32`. -/
theorem lostPacketsLoop_split (pre : List UplinkMetaData) (a b : UplinkMetaData)
    (post : List UplinkMetaData) :
    lostPacketsLoop 0 0 0 (pre ++ a :: b :: post) =
      (lostPacketsLoop 0 0 0 (pre ++ [a]) + subU32 (subU32 b.FCnt a.FCnt) 1 +
        lostPacketsLoop 0 0 0 (b :: post)) % 4294967296 := by
  have hpair : ((subU32 (subU32 b.FCnt a.FCnt) 1 : Nat) : Int) =
      (((b.FCnt : Int) - (a.FCnt : Int)) % 4294967296 - 1) % 4294967296 := by
    rw [subU32_cast, subU32_cast, Nat.cast_one]
  have hpost := lostPacketsLoop_cons_cast b post
  cases pre with
  | nil =>
    have hwhole := lostPacketsLoop_cons_cast a (b :: post)
    have hpre := lostPacketsLoop_cons_cast a []
    rw [lastFCntFrom] at hwhole
    rw [lastFCntFrom] at hpre
    refine lostPackets_split_arith _ _ _ _ (lastFCntFrom b.FCnt post) a.FCnt a.FCnt
      b.FCnt 0 post.length ?_ ?_ hpost ?_
    · rw [List.nil_append, hwhole, List.length_cons]
      push_cast
      congr 1
      ring
    · rw [List.nil_append, hpre, List.length_nil]
      push_cast
      rfl
    · exact hpair
  | cons p pre =>
    have hwhole := lostPacketsLoop_cons_cast p (pre ++ a :: b :: post)
    have hpre := lostPacketsLoop_cons_cast p (pre ++ [a])
    rw [lastFCntFrom_append pre p.FCnt a (b :: post), lastFCntFrom] at hwhole
    rw [lastFCntFrom_append pre p.FCnt a [], lastFCntFrom] at hpre
    refine lostPackets_split_arith _ _ _ _ (lastFCntFrom b.FCnt post) p.FCnt a.FCnt
      b.FCnt (pre.length + 1) post.length ?_ ?_ hpost ?_
    · rw [List.cons_append, hwhole, List.length_append, List.length_cons,
        List.length_cons]
      push_cast
      congr 1
      ring
    · rw [List.cons_append, hpre, List.length_append, List.length_cons,
        List.length_nil]
      push_cast
      congr 1
    · exact hpair

theorem roundToEven_sub_le (t : ℚ) : |(roundToEven t : ℚ) - t| ≤ 1 / 2 := by
  unfold roundToEven
  have h1 := Int.floor_le t
  have h2 := Int.lt_floor_add_one t
  split_ifs with ha hb hc
  · rw [abs_le]; constructor <;> linarith
  · push_cast; rw [abs_le]; constructor <;> linarith
  · rw [abs_le]; constructor <;> linarith
  · push_cast; rw [abs_le]; constructor <;> linarith

theorem roundToEven_eq_of_abs_lt (t : ℚ) (n : Int) (h : |t - n| < 1 / 2) :
    roundToEven t = n := by
  have herr := roundToEven_sub_le t
  rw [abs_lt] at h
  rw [abs_le] at herr
  have h3 : ((roundToEven t - n : Int) : ℚ) < 1 := by push_cast; linarith
  have h4 : (-1 : ℚ) < ((roundToEven t - n : Int) : ℚ) := by push_cast; linarith
  have h5 : roundToEven t - n < 1 := by exact_mod_cast h3
  have h6 : -1 < roundToEven t - n := by exact_mod_cast h4
  omega

theorem roundToEven_intCast (n : Int) : roundToEven (n : ℚ) = n :=
  roundToEven_eq_of_abs_lt _ n (by simp)

theorem roundToEven_tie (n : Int) :
    roundToEven ((n : ℚ) + 1 / 2) = if n % 2 = 0 then n else n + 1 := by
  have hfl : ⌊(n : ℚ) + 1 / 2⌋ = n := by
    rw [Int.floor_eq_iff]
    constructor <;> norm_num
  unfold roundToEven
  rw [hfl]
  have h1 : ¬ ((n : ℚ) + 1 / 2 - (n : ℚ) < 1 / 2) := by norm_num
  have h2 : ¬ ((1 : ℚ) / 2 < (n : ℚ) + 1 / 2 - (n : ℚ)) := by norm_num
  rw [if_neg h1, if_neg h2]

theorem f32Exponent_eq (x : ℚ) (e : Int) (he : -126 ≤ e) (hlo : (2 : ℚ) ^ e ≤ |x|)
    (hhi : |x| < (2 : ℚ) ^ (e + 1)) : f32Exponent x = e := by
  have hpos : (0 : ℚ) < |x| := lt_of_lt_of_le (by positivity) hlo
  have h1 : e ≤ Int.log 2 |x| := by
    rw [← Int.zpow_le_iff_le_log (by norm_num) hpos]
    exact_mod_cast hlo
  have h2 : Int.log 2 |x| < e + 1 := by
    rw [← Int.lt_zpow_iff_log_lt (by norm_num) hpos]
    exact_mod_cast hhi
  unfold f32Exponent
  omega

/-- Evaluation of `roundF32` in the normal range from the binade of `x` and the
rounded significand. -/
theorem roundF32_eval (x : ℚ) (e n : Int) (he : -126 ≤ e) (hlo : (2 : ℚ) ^ e ≤ |x|)
    (hhi : |x| < (2 : ℚ) ^ (e + 1)) (hn : roundToEven (x / 2 ^ (e - 23)) = n) :
    roundF32 x = (n : ℚ) * 2 ^ (e - 23) := by
  have hx : x ≠ 0 := by
    intro h0
    rw [h0, abs_zero] at hlo
    exact absurd hlo (not_le.mpr (by positivity))
  unfold roundF32
  rw [if_neg hx, f32Exponent_eq x e he hlo hhi, hn]

theorem f32Exponent_ge (x : ℚ) : -126 ≤ f32Exponent x := le_max_right _ _

theorem abs_lt_zpow_f32Exponent (x : ℚ) : |x| < (2 : ℚ) ^ (f32Exponent x + 1) := by
  have h1 : |x| < ((2 : ℕ) : ℚ) ^ (Int.log 2 |x| + 1) :=
    Int.lt_zpow_succ_log_self (by norm_num) |x|
  have h2 : ((2 : ℕ) : ℚ) ^ (Int.log 2 |x| + 1) ≤ (2 : ℚ) ^ (f32Exponent x + 1) := by
    have hle : Int.log 2 |x| + 1 ≤ f32Exponent x + 1 := by
      unfold f32Exponent
      omega
    exact_mod_cast zpow_le_zpow_right₀ (by norm_num : (1 : ℚ) ≤ 2) hle
  exact lt_of_lt_of_le h1 h2

theorem f32Exponent_neg_of_abs_lt_one (x : ℚ) (hx : x ≠ 0) (h : |x| < 1) :
    f32Exponent x ≤ -1 := by
  have hpos : (0 : ℚ) < |x| := abs_pos.mpr hx
  have hlog : Int.log 2 |x| < 0 := by
    rw [← Int.lt_zpow_iff_log_lt (by norm_num) hpos]
    simpa using h
  unfold f32Exponent
  omega

/-- The rounding error is at most half a unit in the last place. -/
theorem roundF32_sub_le (x : ℚ) :
    |roundF32 x - x| ≤ (2 : ℚ) ^ (f32Exponent x - 23) / 2 := by
  have hq : (0 : ℚ) < (2 : ℚ) ^ (f32Exponent x - 23) := by positivity
  by_cases hx : x = 0
  · rw [hx]
    simp only [roundF32, if_true, sub_zero, abs_zero]
    positivity
  · unfold roundF32
    rw [if_neg hx]
    have herr := roundToEven_sub_le (x / (2 : ℚ) ^ (f32Exponent x - 23))
    have hrw : (roundToEven (x / (2 : ℚ) ^ (f32Exponent x - 23)) : ℚ) *
        (2 : ℚ) ^ (f32Exponent x - 23) - x =
        ((roundToEven (x / (2 : ℚ) ^ (f32Exponent x - 23)) : ℚ) -
          x / (2 : ℚ) ^ (f32Exponent x - 23)) * (2 : ℚ) ^ (f32Exponent x - 23) := by
      field_simp
    rw [hrw, abs_mul, abs_of_pos hq]
    calc |(roundToEven (x / (2 : ℚ) ^ (f32Exponent x - 23)) : ℚ) -
          x / (2 : ℚ) ^ (f32Exponent x - 23)| * (2 : ℚ) ^ (f32Exponent x - 23)
        ≤ 1 / 2 * (2 : ℚ) ^ (f32Exponent x - 23) :=
          mul_le_mul_of_nonneg_right herr (le_of_lt hq)
      _ = (2 : ℚ) ^ (f32Exponent x - 23) / 2 := by ring

/-- The rounded significand has at most 24 bits. -/
theorem roundToEven_significand_le (x : ℚ) :
    |roundToEven (x / (2 : ℚ) ^ (f32Exponent x - 23))| ≤ 2 ^ 24 := by
  have hq : (0 : ℚ) < (2 : ℚ) ^ (f32Exponent x - 23) := by positivity
  have hlt := abs_lt_zpow_f32Exponent x
  have hsplit : (2 : ℚ) ^ (f32Exponent x + 1) =
      2 ^ 24 * (2 : ℚ) ^ (f32Exponent x - 23) := by
    rw [show f32Exponent x + 1 = 24 + (f32Exponent x - 23) by ring,
      zpow_add₀ (by norm_num : (2 : ℚ) ≠ 0)]
    norm_num
  have hquot : |x / (2 : ℚ) ^ (f32Exponent x - 23)| < 2 ^ 24 := by
    rw [abs_div, abs_of_pos hq, div_lt_iff₀ hq, ← hsplit]
    exact hlt
  have herr := roundToEven_sub_le (x / (2 : ℚ) ^ (f32Exponent x - 23))
  rw [abs_le] at herr
  rw [abs_lt] at hquot
  have h1 : ((roundToEven (x / (2 : ℚ) ^ (f32Exponent x - 23)) : Int) : ℚ) <
      ((2 ^ 24 + 1 : Int) : ℚ) := by
    push_cast; linarith
  have h2 : ((-(2 ^ 24 + 1) : Int) : ℚ) <
      ((roundToEven (x / (2 : ℚ) ^ (f32Exponent x - 23)) : Int) : ℚ) := by
    push_cast; linarith
  have h3 : roundToEven (x / (2 : ℚ) ^ (f32Exponent x - 23)) < 2 ^ 24 + 1 := by
    exact_mod_cast h1
  have h4 : -(2 ^ 24 + 1) < roundToEven (x / (2 : ℚ) ^ (f32Exponent x - 23)) := by
    exact_mod_cast h2
  rw [abs_le]
  constructor <;> omega

/-- A float32 value below 3 in magnitude is at most `3 - 2^-22` in magnitude: the
values between 2 and 4 are multiples of `2^-22`. -/
theorem roundF32_abs_le_of_lt_three (z : ℚ) (h : |roundF32 z| < 3) :
    |roundF32 z| ≤ 3 - 1 / 2 ^ 22 := by
  by_cases hz : z = 0
  · rw [hz]
    simp only [roundF32, if_true, abs_zero]
    norm_num
  · have hN := roundToEven_significand_le z
    have hm : roundF32 z = (roundToEven (z / (2 : ℚ) ^ (f32Exponent z - 23)) : ℚ) *
        (2 : ℚ) ^ (f32Exponent z - 23) := by
      unfold roundF32
      rw [if_neg hz]
    generalize roundToEven (z / (2 : ℚ) ^ (f32Exponent z - 23)) = N at hN hm
    generalize f32Exponent z = E at hm
    have hNq : |(N : ℚ)| ≤ 2 ^ 24 := by exact_mod_cast hN
    rcases le_or_lt E 0 with hE | hE
    · -- the value is at most 2
      have hq : (0 : ℚ) < (2 : ℚ) ^ (E - 23) := by positivity
      have hq2 : (2 : ℚ) ^ (E - 23) ≤ (2 : ℚ) ^ ((-23 : Int)) :=
        zpow_le_zpow_right₀ (by norm_num) (by omega)
      have h23 : (2 : ℚ) ^ ((-23 : Int)) = 1 / 2 ^ 23 := by
        rw [zpow_neg]; norm_num
      rw [hm, abs_mul, abs_of_pos hq]
      calc |(N : ℚ)| * (2 : ℚ) ^ (E - 23) ≤ 2 ^ 24 * (1 / 2 ^ 23) := by
            rw [← h23]
            exact mul_le_mul hNq hq2 (le_of_lt hq) (by norm_num)
        _ ≤ 3 - 1 / 2 ^ 22 := by norm_num
    · -- the value is a multiple of 2^-22
      obtain ⟨k, hk⟩ : ∃ k : Nat, E - 23 = (k : Int) + (-22) := ⟨(E - 1).toNat, by omega⟩
      have hq : (2 : ℚ) ^ (E - 23) = ((2 ^ k : Int) : ℚ) * (1 / 2 ^ 22) := by
        rw [hk, zpow_add₀ (by norm_num : (2 : ℚ) ≠ 0), zpow_natCast, zpow_neg]
        norm_num
      have hmK : roundF32 z = ((N * 2 ^ k : Int) : ℚ) * (1 / 2 ^ 22) := by
        rw [hm, hq]
        push_cast
        ring
      rw [hmK] at h ⊢
      generalize N * 2 ^ k = K at h ⊢
      have hpos : (0 : ℚ) < 1 / 2 ^ 22 := by norm_num
      rw [abs_mul, abs_of_pos hpos] at h ⊢
      have hK : |(K : ℚ)| < 12582912 := by
        have := (lt_div_iff₀ hpos).mpr h
        norm_num at this
        exact this
      have hK2 : |K| < 12582912 := by exact_mod_cast hK
      have hK3 : |K| ≤ 12582911 := by omega
      have hK4 : |(K : ℚ)| ≤ 12582911 := by exact_mod_cast hK3
      calc |(K : ℚ)| * (1 / 2 ^ 22) ≤ 12582911 * (1 / 2 ^ 22) :=
            mul_le_mul_of_nonneg_right hK4 (le_of_lt hpos)
        _ = 3 - 1 / 2 ^ 22 := by norm_num

/-- A float32 value strictly between -3 and 3, divided by 3 in float32, lies strictly
between -1 and 1. -/
theorem roundF32_div_three_abs_lt_one (z : ℚ) (h : |roundF32 z| < 3) :
    |roundF32 (roundF32 z / 3)| < 1 := by
  have hle := roundF32_abs_le_of_lt_three z h
  generalize roundF32 z = m at h hle
  have hx : |m / 3| ≤ 1 - 1 / 2 ^ 22 / 3 := by
    rw [abs_div, abs_of_pos (by norm_num : (0 : ℚ) < 3)]
    linarith
  by_cases h0 : m / 3 = 0
  · rw [h0]
    simp [roundF32]
  · have hlt1 : |m / 3| < 1 := lt_of_le_of_lt hx (by norm_num)
    have hE := f32Exponent_neg_of_abs_lt_one (m / 3) h0 hlt1
    have herr := roundF32_sub_le (m / 3)
    have hq : (2 : ℚ) ^ (f32Exponent (m / 3) - 23) ≤ (2 : ℚ) ^ ((-24 : Int)) :=
      zpow_le_zpow_right₀ (by norm_num) (by omega)
    have h24 : (2 : ℚ) ^ ((-24 : Int)) = 1 / 2 ^ 24 := by
      rw [zpow_neg]; norm_num
    rw [h24] at hq
    have htri : |roundF32 (m / 3)| ≤ |roundF32 (m / 3) - m / 3| + |m / 3| := by
      have := abs_add (roundF32 (m / 3) - m / 3) (m / 3)
      simpa using this
    have hbound : |roundF32 (m / 3)| ≤ 1 / 2 ^ 24 / 2 + (1 - 1 / 2 ^ 22 / 3) := by
      linarith
    exact lt_of_le_of_lt hbound (by norm_num)

/-- Integers of at most 24 bits are float32 values. -/
theorem roundF32_intCast (n : Int) (h : |n| ≤ 2 ^ 24) : roundF32 (n : ℚ) = n := by
  by_cases hn : (n : ℚ) = 0
  · rw [hn]; simp [roundF32]
  · have hn0 : n ≠ 0 := by exact_mod_cast hn
    have hq : (0 : ℚ) < (2 : ℚ) ^ (f32Exponent (n : ℚ) - 23) := by positivity
    have hone : (1 : ℚ) ≤ |(n : ℚ)| := by
      have : (1 : Int) ≤ |n| := Int.one_le_abs hn0
      exact_mod_cast this
    have hlog0 : 0 ≤ Int.log 2 |(n : ℚ)| := by
      rw [← Int.zpow_le_iff_le_log (by norm_num) (lt_of_lt_of_le one_pos hone)]
      simpa using hone
    have hE : f32Exponent (n : ℚ) = Int.log 2 |(n : ℚ)| := by
      unfold f32Exponent; omega
    have hlo : (2 : ℚ) ^ (f32Exponent (n : ℚ)) ≤ |(n : ℚ)| := by
      rw [hE]
      exact_mod_cast Int.zpow_log_le_self (by norm_num : 1 < 2)
        (lt_of_lt_of_le one_pos hone)
    have hEle : f32Exponent (n : ℚ) ≤ 24 := by
      by_contra hcon
      have h25 : (2 : ℚ) ^ (25 : Int) ≤ (2 : ℚ) ^ (f32Exponent (n : ℚ)) :=
        zpow_le_zpow_right₀ (by norm_num) (by omega)
      have habs : |(n : ℚ)| ≤ 2 ^ 24 := by exact_mod_cast h
      have : (2 : ℚ) ^ (25 : Int) ≤ 2 ^ 24 := le_trans h25 (le_trans hlo habs)
      norm_num at this
    have hE0 : 0 ≤ f32Exponent (n : ℚ) := by omega
    obtain ⟨k, hk⟩ :
        ∃ k : Int, (n : ℚ) / (2 : ℚ) ^ (f32Exponent (n : ℚ) - 23) = (k : ℚ) := by
      rcases lt_or_eq_of_le hEle with hlt | heq
      · obtain ⟨j, hj⟩ : ∃ j : Nat, f32Exponent (n : ℚ) - 23 = -(j : Int) :=
          ⟨(23 - f32Exponent (n : ℚ)).toNat, by omega⟩
        refine ⟨n * 2 ^ j, ?_⟩
        rw [hj, zpow_neg, zpow_natCast]
        push_cast
        field_simp
      · have habs : |(n : ℚ)| ≤ 2 ^ 24 := by exact_mod_cast h
        rw [heq] at hlo
        have hlo2 : (2 : ℚ) ^ 24 ≤ |(n : ℚ)| := by
          have h24 : (2 : ℚ) ^ (24 : Int) = 2 ^ 24 := by norm_num
          rw [← h24]; exact hlo
        have hexact : |(n : ℚ)| = 2 ^ 24 := le_antisymm habs hlo2
        have hexact2 : |n| = 2 ^ 24 := by exact_mod_cast hexact
        rw [heq]
        rcases abs_eq (by norm_num : (0 : Int) ≤ 2 ^ 24) |>.mp hexact2 with hp | hp
        · refine ⟨2 ^ 23, ?_⟩
          rw [hp]; norm_num
        · refine ⟨-2 ^ 23, ?_⟩
          rw [hp]; norm_num
    unfold roundF32
    rw [if_neg hn, hk, roundToEven_intCast, ← hk]
    field_simp

theorem roundF32_eval_pos (x : ℚ) (e n : Int) (he : -126 ≤ e) (hlo : (2 : ℚ) ^ e ≤ x)
    (hhi : x < (2 : ℚ) ^ (e + 1)) (hn : roundToEven (x / 2 ^ (e - 23)) = n) :
    roundF32 x = (n : ℚ) * 2 ^ (e - 23) := by
  have hpos : (0 : ℚ) < x := lt_of_lt_of_le (by positivity) hlo
  exact roundF32_eval x e n he (by rw [abs_of_pos hpos]; exact hlo)
    (by rw [abs_of_pos hpos]; exact hhi) hn

theorem roundF32_eval_neg (x : ℚ) (e n : Int) (he : -126 ≤ e) (hlo : x ≤ -(2 : ℚ) ^ e)
    (hhi : -(2 : ℚ) ^ (e + 1) < x) (hn : roundToEven (x / 2 ^ (e - 23)) = n) :
    roundF32 x = (n : ℚ) * 2 ^ (e - 23) := by
  have hpow : (0 : ℚ) < (2 : ℚ) ^ e := by positivity
  have hneg : x < 0 := by linarith
  exact roundF32_eval x e n he (by rw [abs_of_neg hneg]; linarith)
    (by rw [abs_of_neg hneg]; linarith) hn

theorem roundToEven_tie_eq (t : ℚ) (f n : Int) (ht : t = (f : ℚ) + 1 / 2)
    (hn : n = if f % 2 = 0 then f else f + 1) : roundToEven t = n := by
  rw [ht, hn]
  exact roundToEven_tie f

theorem roundF32_zero : roundF32 0 = 0 := by simp [roundF32]

theorem roundF32_natCast (n : Nat) (h : n ≤ 2 ^ 24) : roundF32 (n : ℚ) = n := by
  have h2 := roundF32_intCast (n : Int) (by simpa using (by exact_mod_cast h))
  simpa using h2

theorem countF32_eq (n : Nat) (h : n ≤ 2 ^ 24) : countF32 n = n := by
  induction n with
  | zero => simp [countF32]
  | succ k ih =>
    have hk := ih (by omega)
    unfold countF32 at hk ⊢
    rw [Function.iterate_succ_apply', hk, addF32]
    have hr := roundF32_natCast (k + 1) h
    push_cast at hr ⊢
    exact hr

theorem getMeanSNRLoopF32_eq (txPowerIndex : Int) (history : List UplinkMetaData) :
    ∀ sumSNR countSNR : ℚ, getMeanSNRLoopF32 txPowerIndex sumSNR countSNR history =
      (((recordsAtPower txPowerIndex history).map (fun m => m.MaxSNR)).foldl addF32 sumSNR,
       (fun c => addF32 c 1)^[(recordsAtPower txPowerIndex history).length] countSNR) := by
  induction history with
  | nil => intro s c; simp [getMeanSNRLoopF32, recordsAtPower]
  | cons m rest ih =>
    intro s c
    by_cases h : txPowerIndex = m.TXPowerIndex
    · have h2 : m.TXPowerIndex = txPowerIndex := h.symm
      have ih2 := ih (addF32 s m.MaxSNR) (addF32 c 1)
      simp only [recordsAtPower] at ih2 ⊢
      simp only [getMeanSNRLoopF32, if_pos h, ih2, List.filter_cons, h2, decide_True,
        if_true, List.length_cons, List.map_cons, List.foldl_cons,
        Function.iterate_succ_apply]
    · have h2 : ¬ m.TXPowerIndex = txPowerIndex := fun e => h e.symm
      have ih2 := ih s c
      simp only [recordsAtPower] at ih2 ⊢
      simp only [getMeanSNRLoopF32, if_neg h, ih2, List.filter_cons, h2, decide_False]
      simp

theorem getMeanSNRF32_eq (req : HandleRequest) :
    getMeanSNRF32 req =
      meanF32 ((recordsAtPower req.TxPowerIndex req.UplinkHistory).map
        (fun m => m.MaxSNR)) := by
  simp [getMeanSNRF32, getMeanSNRLoopF32_eq, meanF32, sumF32, countF32]

theorem HandleF32_disabled (req : HandleRequest) (hADR : req.ADR = false) :
    HandleF32 req =
      some ({ DR := req.DR, TxPowerIndex := req.TxPowerIndex, NbTrans := req.NbTrans },
        none) := by
  simp [HandleF32, hADR]

/-- The shape of the float32 response of an ADR-enabled request: the retransmission
count is the selector's, and `(TxPowerIndex, DR)` is the step walk's result for the
float32 number of steps when more than 10 records are at the current power index, the
clamped request values otherwise. -/
theorem HandleF32_enabled (req : HandleRequest) (hADR : req.ADR = true) :
    ∃ nbTrans : Int,
      getNbTrans req.NbTrans (getPacketLossPercentageF32 req) = some nbTrans ∧
      1 ≤ nbTrans ∧ nbTrans ≤ 3 ∧
      HandleF32 req = some (
        (if 10 < (recordsAtPower req.TxPowerIndex req.UplinkHistory).length then
          { DR := (getIdealTxPowerIndexAndDR (nStepF32 req)
              req.TxPowerIndex (min req.DR req.MaxDR) req.MaxTxPowerIndex req.MaxDR).2,
            TxPowerIndex := (getIdealTxPowerIndexAndDR (nStepF32 req)
              req.TxPowerIndex (min req.DR req.MaxDR) req.MaxTxPowerIndex req.MaxDR).1,
            NbTrans := nbTrans }
        else
          { DR := min req.DR req.MaxDR, TxPowerIndex := req.TxPowerIndex,
            NbTrans := nbTrans }), none) := by
  obtain ⟨n, hn, h1, h3⟩ := getNbTrans_some req.NbTrans (getPacketLossPercentageF32 req)
  refine ⟨n, hn, h1, h3, ?_⟩
  have hmin : (if req.DR > req.MaxDR then req.MaxDR else req.DR) = min req.DR req.MaxDR := by
    split_ifs with h
    · exact (min_eq_right (le_of_lt h)).symm
    · exact (min_eq_left (not_lt.mp h)).symm
  have hcount : (getHistoryCount req > requiredHistoryCount) ↔
      10 < (recordsAtPower req.TxPowerIndex req.UplinkHistory).length := by
    rw [getHistoryCount_eq, requiredHistoryCount]
    constructor <;> intro h <;> omega
  unfold HandleF32
  simp only [hADR, hn, Bool.not_true, Bool.false_eq_true, if_false]
  by_cases hc : 10 < (recordsAtPower req.TxPowerIndex req.UplinkHistory).length
  · rw [if_pos (hcount.mpr hc), if_pos hc]
    have hm : truncToInt (divF32 (subF32 (subF32 (getMeanSNRF32 req) req.RequiredSNRForDR)
        req.InstallationMargin) 3) = nStepF32 req := by
      rw [getMeanSNRF32_eq, nStepF32, snrMarginF32]
    by_cases hd : req.DR > req.MaxDR
    · simp only [if_pos hd] at hmin
      simp only [if_pos hd, hm, ← hmin]
    · simp only [if_neg hd] at hmin
      simp only [if_neg hd, hm, ← hmin]
  · rw [if_neg (fun h => hc (hcount.mp h)), if_neg hc]
    by_cases hd : req.DR > req.MaxDR
    · simp only [if_pos hd] at hmin
      simp only [if_pos hd, ← hmin]
    · simp only [if_neg hd] at hmin
      simp only [if_neg hd, ← hmin]

theorem getPacketLossPercentageF32_zero (req : HandleRequest)
    (h : lostPacketsLoop 0 0 0 req.UplinkHistory = 0) :
    getPacketLossPercentageF32 req = 0 := by
  unfold getPacketLossPercentageF32
  split_ifs
  · rfl
  · simp [h, roundF32_zero, divF32, mulF32]

/-- A float32 margin strictly between -3 and 3 gives no step. -/
theorem nStepF32_eq_zero (req : HandleRequest) (hLow : -3 < snrMarginF32 req)
    (hHigh : snrMarginF32 req < 3) : nStepF32 req = 0 := by
  have habs : |snrMarginF32 req| < 3 := abs_lt.mpr ⟨hLow, hHigh⟩
  unfold snrMarginF32 subF32 at habs
  have h := roundF32_div_three_abs_lt_one _ habs
  rw [abs_lt] at h
  unfold nStepF32 divF32
  unfold snrMarginF32 subF32
  exact truncToInt_eq_zero _ h.1 h.2

theorem roundF32_of_int (x : ℚ) (n : Int) (hx : x = (n : ℚ)) (h : |n| ≤ 2 ^ 24) :
    roundF32 x = x := by
  rw [hx]
  exact roundF32_intCast n h

theorem sumF32_scenarioC :
    sumF32 ((recordsAtPower scenarioC.TxPowerIndex scenarioC.UplinkHistory).map
      (fun m => m.MaxSNR)) = 220 := by
  have h20 : roundF32 20 = 20 := roundF32_of_int 20 20 (by norm_num) (by norm_num)
  have h40 : roundF32 40 = 40 := roundF32_of_int 40 40 (by norm_num) (by norm_num)
  have h60 : roundF32 60 = 60 := roundF32_of_int 60 60 (by norm_num) (by norm_num)
  have h80 : roundF32 80 = 80 := roundF32_of_int 80 80 (by norm_num) (by norm_num)
  have h100 : roundF32 100 = 100 := roundF32_of_int 100 100 (by norm_num) (by norm_num)
  have h120 : roundF32 120 = 120 := roundF32_of_int 120 120 (by norm_num) (by norm_num)
  have h140 : roundF32 140 = 140 := roundF32_of_int 140 140 (by norm_num) (by norm_num)
  have h160 : roundF32 160 = 160 := roundF32_of_int 160 160 (by norm_num) (by norm_num)
  have h180 : roundF32 180 = 180 := roundF32_of_int 180 180 (by norm_num) (by norm_num)
  have h200 : roundF32 200 = 200 := roundF32_of_int 200 200 (by norm_num) (by norm_num)
  have h220 : roundF32 220 = 220 := roundF32_of_int 220 220 (by norm_num) (by norm_num)
  simp only [sumF32, scenarioC, recordsAtPower, uniformHistory, List.range, List.range.loop,
    List.map, List.filter, decide_True, List.foldl, addF32]
  norm_num [h20, h40, h60, h80, h100, h120, h140, h160, h180, h200, h220]

theorem sumF32_scenarioD :
    sumF32 ((recordsAtPower scenarioD.TxPowerIndex scenarioD.UplinkHistory).map
      (fun m => m.MaxSNR)) = 55 := by
  have h5 : roundF32 5 = 5 := roundF32_of_int 5 5 (by norm_num) (by norm_num)
  have h10 : roundF32 10 = 10 := roundF32_of_int 10 10 (by norm_num) (by norm_num)
  have h15 : roundF32 15 = 15 := roundF32_of_int 15 15 (by norm_num) (by norm_num)
  have h20 : roundF32 20 = 20 := roundF32_of_int 20 20 (by norm_num) (by norm_num)
  have h25 : roundF32 25 = 25 := roundF32_of_int 25 25 (by norm_num) (by norm_num)
  have h30 : roundF32 30 = 30 := roundF32_of_int 30 30 (by norm_num) (by norm_num)
  have h35 : roundF32 35 = 35 := roundF32_of_int 35 35 (by norm_num) (by norm_num)
  have h40 : roundF32 40 = 40 := roundF32_of_int 40 40 (by norm_num) (by norm_num)
  have h45 : roundF32 45 = 45 := roundF32_of_int 45 45 (by norm_num) (by norm_num)
  have h50 : roundF32 50 = 50 := roundF32_of_int 50 50 (by norm_num) (by norm_num)
  have h55 : roundF32 55 = 55 := roundF32_of_int 55 55 (by norm_num) (by norm_num)
  simp only [sumF32, scenarioD, scenarioC, recordsAtPower, uniformHistory, List.range,
    List.range.loop, List.map, List.filter, decide_True, List.foldl, addF32]
  norm_num [h5, h10, h15, h20, h25, h30, h35, h40, h45, h50, h55]

/-- The measurement `10 - 2^-20` is a float32 value. -/
theorem roundF32_ten_minus_ulp :
    roundF32 (10485759 / 1048576) = 10485759 / 1048576 := by
  rw [roundF32_eval (10485759 / 1048576) 3 10485759 (by norm_num)
    (by norm_num [abs_of_pos]) (by norm_num [abs_of_pos])
    (roundToEven_eq_of_abs_lt _ _ (by norm_num [abs_lt]))]
  norm_num

/-- The sum `(10 - 2^-20) + 10` lies half way between two float32 values and rounds to
the even one, 20. -/
theorem roundF32_twenty_minus_ulp : roundF32 (20971519 / 1048576) = 20 := by
  have htie : roundToEven (20971519 / 1048576 / 2 ^ ((4 : Int) - 23)) = 10485760 := by
    have h := roundToEven_tie 10485759
    norm_num at h
    rw [← h]
    congr 1
    norm_num
  rw [roundF32_eval (20971519 / 1048576) 4 10485760 (by norm_num)
    (by norm_num [abs_of_pos]) (by norm_num [abs_of_pos]) htie]
  norm_num

theorem sumF32_roundingHistory :
    sumF32 ((recordsAtPower roundingHistory.TxPowerIndex
      roundingHistory.UplinkHistory).map (fun m => m.MaxSNR)) = 110 := by
  have h30 : roundF32 30 = 30 := roundF32_of_int 30 30 (by norm_num) (by norm_num)
  have h40 : roundF32 40 = 40 := roundF32_of_int 40 40 (by norm_num) (by norm_num)
  have h50 : roundF32 50 = 50 := roundF32_of_int 50 50 (by norm_num) (by norm_num)
  have h60 : roundF32 60 = 60 := roundF32_of_int 60 60 (by norm_num) (by norm_num)
  have h70 : roundF32 70 = 70 := roundF32_of_int 70 70 (by norm_num) (by norm_num)
  have h80 : roundF32 80 = 80 := roundF32_of_int 80 80 (by norm_num) (by norm_num)
  have h90 : roundF32 90 = 90 := roundF32_of_int 90 90 (by norm_num) (by norm_num)
  have h100 : roundF32 100 = 100 := roundF32_of_int 100 100 (by norm_num) (by norm_num)
  have h110 : roundF32 110 = 110 := roundF32_of_int 110 110 (by norm_num) (by norm_num)
  simp only [sumF32, roundingHistory, scenarioC, recordsAtPower, uniformHistory,
    List.range, List.range.loop, List.map, List.filter, decide_True, List.foldl, addF32]
  norm_num [roundF32_ten_minus_ulp, roundF32_twenty_minus_ulp, h30, h40, h50, h60, h70,
    h80, h90, h100, h110]

theorem snrMarginF32_scenarioC : snrMarginF32 scenarioC = 13 := by
  have hlen : (recordsAtPower scenarioC.TxPowerIndex scenarioC.UplinkHistory).length = 11 := by
    decide
  have h20 : roundF32 20 = 20 := roundF32_of_int 20 20 (by norm_num) (by norm_num)
  have h15 : roundF32 15 = 15 := roundF32_of_int 15 15 (by norm_num) (by norm_num)
  have h13 : roundF32 13 = 13 := roundF32_of_int 13 13 (by norm_num) (by norm_num)
  rw [snrMarginF32, meanF32, sumF32_scenarioC, List.length_map, hlen,
    countF32_eq 11 (by norm_num)]
  simp only [divF32, subF32, scenarioC]
  norm_num [h20, h15, h13]

theorem snrMarginF32_scenarioD : snrMarginF32 scenarioD = -2 := by
  have hlen : (recordsAtPower scenarioD.TxPowerIndex scenarioD.UplinkHistory).length = 11 := by
    decide
  have h5 : roundF32 5 = 5 := roundF32_of_int 5 5 (by norm_num) (by norm_num)
  have h2 : roundF32 (-2) = -2 := roundF32_of_int (-2) (-2) (by norm_num) (by norm_num)
  rw [snrMarginF32, meanF32, sumF32_scenarioD, List.length_map, hlen,
    countF32_eq 11 (by norm_num)]
  simp only [divF32, subF32, scenarioD, scenarioC]
  norm_num [h5, h2, roundF32_zero]

theorem snrMarginF32_roundingHistory : snrMarginF32 roundingHistory = 3 := by
  have hlen : (recordsAtPower roundingHistory.TxPowerIndex
      roundingHistory.UplinkHistory).length = 11 := by
    decide
  have h10 : roundF32 10 = 10 := roundF32_of_int 10 10 (by norm_num) (by norm_num)
  have h5 : roundF32 5 = 5 := roundF32_of_int 5 5 (by norm_num) (by norm_num)
  have h3 : roundF32 3 = 3 := roundF32_of_int 3 3 (by norm_num) (by norm_num)
  rw [snrMarginF32, meanF32, sumF32_roundingHistory, List.length_map, hlen,
    countF32_eq 11 (by norm_num)]
  simp only [divF32, subF32, roundingHistory, scenarioC]
  norm_num [h10, h5, h3]

theorem nStepF32_scenarioC : nStepF32 scenarioC = 4 := by
  have hq : roundF32 (13 / 3) = 9087659 / 2097152 := by
    rw [roundF32_eval (13 / 3) 2 9087659 (by norm_num) (by norm_num [abs_of_pos])
      (by norm_num [abs_of_pos]) (roundToEven_eq_of_abs_lt _ _ (by norm_num [abs_lt]))]
    norm_num
  rw [nStepF32, snrMarginF32_scenarioC, divF32, hq]
  exact truncToInt_eq_of_nonneg_bounds _ 4 (by norm_num) (by norm_num) (by norm_num)

theorem nStepF32_roundingHistory : nStepF32 roundingHistory = 1 := by
  have h1 : roundF32 1 = 1 := roundF32_of_int 1 1 (by norm_num) (by norm_num)
  rw [nStepF32, snrMarginF32_roundingHistory, divF32]
  norm_num [h1]
  exact truncToInt_eq_of_nonneg_bounds _ 1 (by norm_num) (by norm_num) (by norm_num)

theorem snrMarginSpec_roundingHistory :
    snrMarginSpec roundingHistory = 34603007 / 11534336 := by
  simp [snrMarginSpec, roundingHistory, scenarioC, arithmeticMean, recordsAtPower,
    uniformHistory, List.range, List.range.loop]
  norm_num

/-- The float32 response to `roundingHistory`: one step, DR raised from 2 to 3. -/
theorem HandleF32_roundingHistory :
    HandleF32 roundingHistory =
      some ({ DR := 3, TxPowerIndex := 0, NbTrans := 1 }, none) := by
  obtain ⟨n, hn, _, _, hH⟩ := HandleF32_enabled roundingHistory rfl
  rw [getPacketLossPercentageF32_zero roundingHistory (by decide)] at hn
  have h1 : getNbTrans roundingHistory.NbTrans 0 = some 1 := by decide
  rw [h1] at hn
  rw [if_pos (by decide), nStepF32_roundingHistory] at hH
  rw [hH, ← Option.some.inj hn]
  simp [getIdealTxPowerIndexAndDR, roundingHistory, scenarioC]

theorem roundF32_negativeRounding_sum1 :
    roundF32 (-11324621 / 4194304) = (-11324621 / 4194304) := by
  have hn : roundToEven ((-11324621 / 4194304) / 2 ^ ((1 : Int) - 23)) = (-11324621) :=
    roundToEven_eq_of_abs_lt _ _ (by norm_num [abs_lt])
  rw [roundF32_eval_neg (-11324621 / 4194304) (1) (-11324621) (by norm_num) (by norm_num)
    (by norm_num) hn]
  norm_num

theorem roundF32_negativeRounding_sum2 :
    roundF32 (-11324621 / 2097152) = (-11324621 / 2097152) := by
  have hn : roundToEven ((-11324621 / 2097152) / 2 ^ ((2 : Int) - 23)) = (-11324621) :=
    roundToEven_eq_of_abs_lt _ _ (by norm_num [abs_lt])
  rw [roundF32_eval_neg (-11324621 / 2097152) (2) (-11324621) (by norm_num) (by norm_num)
    (by norm_num) hn]
  norm_num

theorem roundF32_negativeRounding_sum3 :
    roundF32 (-33973863 / 4194304) = (-4246733 / 524288) := by
  have hn : roundToEven ((-33973863 / 4194304) / 2 ^ ((3 : Int) - 23)) = (-8493466) :=
    roundToEven_eq_of_abs_lt _ _ (by norm_num [abs_lt])
  rw [roundF32_eval_neg (-33973863 / 4194304) (3) (-8493466) (by norm_num) (by norm_num)
    (by norm_num) hn]
  norm_num

theorem roundF32_negativeRounding_sum4 :
    roundF32 (-23488103 / 2097152) = (-2936013 / 262144) := by
  have hn : roundToEven ((-23488103 / 2097152) / 2 ^ ((3 : Int) - 23)) = (-11744052) :=
    roundToEven_tie_eq _ (-11744052) _ (by norm_num) (by decide)
  rw [roundF32_eval_neg (-23488103 / 2097152) (3) (-11744052) (by norm_num) (by norm_num)
    (by norm_num) hn]
  norm_num

theorem roundF32_negativeRounding_sum5 :
    roundF32 (-29989275 / 2097152) = (-7497319 / 524288) := by
  have hn : roundToEven ((-29989275 / 2097152) / 2 ^ ((3 : Int) - 23)) = (-14994638) :=
    roundToEven_tie_eq _ (-14994638) _ (by norm_num) (by decide)
  rw [roundF32_eval_neg (-29989275 / 2097152) (3) (-14994638) (by norm_num) (by norm_num)
    (by norm_num) hn]
  norm_num

theorem roundF32_negativeRounding_sum6 :
    roundF32 (-36490447 / 2097152) = (-2280653 / 131072) := by
  have hn : roundToEven ((-36490447 / 2097152) / 2 ^ ((4 : Int) - 23)) = (-9122612) :=
    roundToEven_eq_of_abs_lt _ _ (by norm_num [abs_lt])
  rw [roundF32_eval_neg (-36490447 / 2097152) (4) (-9122612) (by norm_num) (by norm_num)
    (by norm_num) hn]
  norm_num

theorem roundF32_negativeRounding_sum7 :
    roundF32 (-42991619 / 2097152) = (-10747905 / 524288) := by
  have hn : roundToEven ((-42991619 / 2097152) / 2 ^ ((4 : Int) - 23)) = (-10747905) :=
    roundToEven_eq_of_abs_lt _ _ (by norm_num [abs_lt])
  rw [roundF32_eval_neg (-42991619 / 2097152) (4) (-10747905) (by norm_num) (by norm_num)
    (by norm_num) hn]
  norm_num

theorem roundF32_negativeRounding_sum8 :
    roundF32 (-49492791 / 2097152) = (-6186599 / 262144) := by
  have hn : roundToEven ((-49492791 / 2097152) / 2 ^ ((4 : Int) - 23)) = (-12373198) :=
    roundToEven_eq_of_abs_lt _ _ (by norm_num [abs_lt])
  rw [roundF32_eval_neg (-49492791 / 2097152) (4) (-12373198) (by norm_num) (by norm_num)
    (by norm_num) hn]
  norm_num

theorem roundF32_negativeRounding_sum9 :
    roundF32 (-55993963 / 2097152) = (-13998491 / 524288) := by
  have hn : roundToEven ((-55993963 / 2097152) / 2 ^ ((4 : Int) - 23)) = (-13998491) :=
    roundToEven_eq_of_abs_lt _ _ (by norm_num [abs_lt])
  rw [roundF32_eval_neg (-55993963 / 2097152) (4) (-13998491) (by norm_num) (by norm_num)
    (by norm_num) hn]
  norm_num

theorem roundF32_negativeRounding_sum10 :
    roundF32 (-62495135 / 2097152) = (-1952973 / 65536) := by
  have hn : roundToEven ((-62495135 / 2097152) / 2 ^ ((4 : Int) - 23)) = (-15623784) :=
    roundToEven_eq_of_abs_lt _ _ (by norm_num [abs_lt])
  rw [roundF32_eval_neg (-62495135 / 2097152) (4) (-15623784) (by norm_num) (by norm_num)
    (by norm_num) hn]
  norm_num

theorem roundF32_negativeRounding_sum11 :
    roundF32 (-68996307 / 2097152) = (-4312269 / 131072) := by
  have hn : roundToEven ((-68996307 / 2097152) / 2 ^ ((5 : Int) - 23)) = (-8624538) :=
    roundToEven_eq_of_abs_lt _ _ (by norm_num [abs_lt])
  rw [roundF32_eval_neg (-68996307 / 2097152) (5) (-8624538) (by norm_num) (by norm_num)
    (by norm_num) hn]
  norm_num

theorem roundF32_negativeRounding_sum12 :
    roundF32 (-75497475 / 2097152) = (-36) := by
  have hn : roundToEven ((-75497475 / 2097152) / 2 ^ ((5 : Int) - 23)) = (-9437184) :=
    roundToEven_eq_of_abs_lt _ _ (by norm_num [abs_lt])
  rw [roundF32_eval_neg (-75497475 / 2097152) (5) (-9437184) (by norm_num) (by norm_num)
    (by norm_num) hn]
  norm_num

theorem sumF32_negativeRoundingHistory :
    sumF32 ((recordsAtPower negativeRoundingHistory.TxPowerIndex
      negativeRoundingHistory.UplinkHistory).map (fun m => m.MaxSNR)) = (-36) := by
  have e1 : addF32 0 f32Minus2p7 = (-11324621 / 4194304) := by
    have hx : (0 : ℚ) + f32Minus2p7 = (-11324621 / 4194304) := by
      rw [f32Minus2p7]; norm_num
    rw [addF32, hx, roundF32_negativeRounding_sum1]
  have e2 : addF32 (-11324621 / 4194304) f32Minus2p7 = (-11324621 / 2097152) := by
    have hx : ((-11324621 / 4194304) : ℚ) + f32Minus2p7 = (-11324621 / 2097152) := by
      rw [f32Minus2p7]; norm_num
    rw [addF32, hx, roundF32_negativeRounding_sum2]
  have e3 : addF32 (-11324621 / 2097152) f32Minus2p7 = (-4246733 / 524288) := by
    have hx : ((-11324621 / 2097152) : ℚ) + f32Minus2p7 = (-33973863 / 4194304) := by
      rw [f32Minus2p7]; norm_num
    rw [addF32, hx, roundF32_negativeRounding_sum3]
  have e4 : addF32 (-4246733 / 524288) f32Minus3p1 = (-2936013 / 262144) := by
    have hx : ((-4246733 / 524288) : ℚ) + f32Minus3p1 = (-23488103 / 2097152) := by
      rw [f32Minus3p1]; norm_num
    rw [addF32, hx, roundF32_negativeRounding_sum4]
  have e5 : addF32 (-2936013 / 262144) f32Minus3p1 = (-7497319 / 524288) := by
    have hx : ((-2936013 / 262144) : ℚ) + f32Minus3p1 = (-29989275 / 2097152) := by
      rw [f32Minus3p1]; norm_num
    rw [addF32, hx, roundF32_negativeRounding_sum5]
  have e6 : addF32 (-7497319 / 524288) f32Minus3p1 = (-2280653 / 131072) := by
    have hx : ((-7497319 / 524288) : ℚ) + f32Minus3p1 = (-36490447 / 2097152) := by
      rw [f32Minus3p1]; norm_num
    rw [addF32, hx, roundF32_negativeRounding_sum6]
  have e7 : addF32 (-2280653 / 131072) f32Minus3p1 = (-10747905 / 524288) := by
    have hx : ((-2280653 / 131072) : ℚ) + f32Minus3p1 = (-42991619 / 2097152) := by
      rw [f32Minus3p1]; norm_num
    rw [addF32, hx, roundF32_negativeRounding_sum7]
  have e8 : addF32 (-10747905 / 524288) f32Minus3p1 = (-6186599 / 262144) := by
    have hx : ((-10747905 / 524288) : ℚ) + f32Minus3p1 = (-49492791 / 2097152) := by
      rw [f32Minus3p1]; norm_num
    rw [addF32, hx, roundF32_negativeRounding_sum8]
  have e9 : addF32 (-6186599 / 262144) f32Minus3p1 = (-13998491 / 524288) := by
    have hx : ((-6186599 / 262144) : ℚ) + f32Minus3p1 = (-55993963 / 2097152) := by
      rw [f32Minus3p1]; norm_num
    rw [addF32, hx, roundF32_negativeRounding_sum9]
  have e10 : addF32 (-13998491 / 524288) f32Minus3p1 = (-1952973 / 65536) := by
    have hx : ((-13998491 / 524288) : ℚ) + f32Minus3p1 = (-62495135 / 2097152) := by
      rw [f32Minus3p1]; norm_num
    rw [addF32, hx, roundF32_negativeRounding_sum10]
  have e11 : addF32 (-1952973 / 65536) f32Minus3p1 = (-4312269 / 131072) := by
    have hx : ((-1952973 / 65536) : ℚ) + f32Minus3p1 = (-68996307 / 2097152) := by
      rw [f32Minus3p1]; norm_num
    rw [addF32, hx, roundF32_negativeRounding_sum11]
  have e12 : addF32 (-4312269 / 131072) f32Minus3p1 = (-36) := by
    have hx : ((-4312269 / 131072) : ℚ) + f32Minus3p1 = (-75497475 / 2097152) := by
      rw [f32Minus3p1]; norm_num
    rw [addF32, hx, roundF32_negativeRounding_sum12]
  simp only [sumF32, negativeRoundingHistory, recordsAtPower, historyOfSNRs, List.map,
    List.filter, decide_True, List.foldl, e1, e2, e3, e4, e5, e6, e7, e8, e9, e10,
    e11, e12]

theorem snrMarginF32_negativeRoundingHistory :
    snrMarginF32 negativeRoundingHistory = -3 := by
  have hlen : (recordsAtPower negativeRoundingHistory.TxPowerIndex
      negativeRoundingHistory.UplinkHistory).length = 12 := by
    decide
  have hm3 : roundF32 (-3) = -3 := roundF32_of_int (-3) (-3) (by norm_num) (by norm_num)
  have h7 : roundF32 7 = 7 := roundF32_of_int 7 7 (by norm_num) (by norm_num)
  rw [snrMarginF32, meanF32, sumF32_negativeRoundingHistory, List.length_map, hlen,
    countF32_eq 12 (by norm_num)]
  simp only [divF32, subF32, negativeRoundingHistory]
  norm_num [hm3, h7]

theorem nStepF32_negativeRoundingHistory : nStepF32 negativeRoundingHistory = -1 := by
  have hm1 : roundF32 (-1) = -1 := roundF32_of_int (-1) (-1) (by norm_num) (by norm_num)
  have ht : truncToInt (-1) = -1 := by
    rw [truncToInt_neg]
    rw [truncToInt_eq_of_nonneg_bounds 1 1 (by norm_num) (by norm_num) (by norm_num)]
  rw [nStepF32, snrMarginF32_negativeRoundingHistory, divF32]
  norm_num [hm1, ht]

theorem snrMarginSpec_negativeRoundingHistory :
    snrMarginSpec negativeRoundingHistory = -50331647 / 16777216 := by
  simp [snrMarginSpec, negativeRoundingHistory, arithmeticMean, recordsAtPower,
    historyOfSNRs, f32Minus2p7, f32Minus3p1]
  norm_num

/-- The float32 response to `negativeRoundingHistory`: one step down, the power index
lowered from 2 to 1. -/
theorem HandleF32_negativeRoundingHistory :
    HandleF32 negativeRoundingHistory =
      some ({ DR := 2, TxPowerIndex := 1, NbTrans := 1 }, none) := by
  obtain ⟨n, hn, _, _, hH⟩ := HandleF32_enabled negativeRoundingHistory rfl
  rw [getPacketLossPercentageF32_zero negativeRoundingHistory (by decide)] at hn
  have h1 : getNbTrans negativeRoundingHistory.NbTrans 0 = some 1 := by decide
  rw [h1] at hn
  rw [if_pos (by decide), nStepF32_negativeRoundingHistory] at hH
  rw [hH, ← Option.some.inj hn]
  simp [getIdealTxPowerIndexAndDR, negativeRoundingHistory]

theorem f32Minus2p7_eq : roundF32 (-27 / 10) = f32Minus2p7 := by
  have hn : roundToEven ((-27 / 10) / 2 ^ ((1 : Int) - 23)) = (-11324621) :=
    roundToEven_eq_of_abs_lt _ _ (by norm_num [abs_lt])
  rw [roundF32_eval_neg (-27 / 10) 1 (-11324621) (by norm_num) (by norm_num)
    (by norm_num) hn, f32Minus2p7]
  norm_num

theorem f32Minus3p1_eq : roundF32 (-31 / 10) = f32Minus3p1 := by
  have hn : roundToEven ((-31 / 10) / 2 ^ ((1 : Int) - 23)) = (-13002342) :=
    roundToEven_eq_of_abs_lt _ _ (by norm_num [abs_lt])
  rw [roundF32_eval_neg (-31 / 10) 1 (-13002342) (by norm_num) (by norm_num)
    (by norm_num) hn, f32Minus3p1]
  norm_num

/-- The float32 response to `mixedPowerHistory`: the gate fails, no step. -/
theorem HandleF32_mixedPowerHistory :
    HandleF32 mixedPowerHistory =
      some ({ DR := 2, TxPowerIndex := 0, NbTrans := 1 }, none) := by
  obtain ⟨n, hn, _, _, hH⟩ := HandleF32_enabled mixedPowerHistory rfl
  rw [getPacketLossPercentageF32_zero mixedPowerHistory (by decide)] at hn
  have h1 : getNbTrans mixedPowerHistory.NbTrans 0 = some 1 := by decide
  rw [h1] at hn
  rw [if_neg (by decide)] at hH
  rw [hH, ← Option.some.inj hn]
  rfl

/-! ## Claims -/

/-- C1: for every request with ADR disabled, `Handle` returns exactly
`(req.DR, req.TxPowerIndex, req.NbTrans)` with a nil error, whatever the bounds, the
SNR fields and the uplink history are. -/
theorem C1_handle_adr_disabled (req : HandleRequest) (hADR : req.ADR = false) :
    Handle req =
      some ({ DR := req.DR, TxPowerIndex := req.TxPowerIndex, NbTrans := req.NbTrans },
        none) := by
  simp [Handle, hADR]

/-- Scenario A: ADR disabled, DR 5, power index 2, NbTrans 1 gives `(5, 2, 1)`. -/
theorem C1_handle_adr_disabled_witness :
    scenarioA.ADR = false ∧
      Handle scenarioA = some ({ DR := 5, TxPowerIndex := 2, NbTrans := 1 }, none) :=
  ⟨rfl, C1_handle_adr_disabled scenarioA rfl⟩

/-- C2: for every request within the caller invariants `0 ≤ DR ≤ MaxDR`,
`0 ≤ TxPowerIndex ≤ MaxTxPowerIndex` and `1 ≤ NbTrans ≤ 3`, `Handle` returns a response
with a nil error that satisfies the same bounds. -/
theorem C2_response_within_bounds (req : HandleRequest)
    (hDR0 : 0 ≤ req.DR) (hDR : req.DR ≤ req.MaxDR)
    (hTx0 : 0 ≤ req.TxPowerIndex) (hTx : req.TxPowerIndex ≤ req.MaxTxPowerIndex)
    (hNb1 : 1 ≤ req.NbTrans) (hNb3 : req.NbTrans ≤ 3) :
    ∃ resp : HandleResponse, Handle req = some (resp, none) ∧
      0 ≤ resp.DR ∧ resp.DR ≤ req.MaxDR ∧
      0 ≤ resp.TxPowerIndex ∧ resp.TxPowerIndex ≤ req.MaxTxPowerIndex ∧
      1 ≤ resp.NbTrans ∧ resp.NbTrans ≤ 3 := by
  cases hADR : req.ADR with
  | false =>
    exact ⟨_, Handle_disabled req hADR, hDR0, hDR, hTx0, hTx, hNb1, hNb3⟩
  | true =>
    obtain ⟨n, _, h1, h3, hH⟩ := Handle_enabled req hADR
    refine ⟨_, hH, ?_⟩
    have hmin : min req.DR req.MaxDR = req.DR := min_eq_left hDR
    have hinv := getIdealTxPowerIndexAndDR_invariant
      (fun tx dr => 0 ≤ dr ∧ dr ≤ req.MaxDR ∧ 0 ≤ tx ∧ tx ≤ req.MaxTxPowerIndex)
      req.MaxTxPowerIndex req.MaxDR
      (fun tx dr h hlt => ⟨by omega, by omega, h.2.2.1, h.2.2.2⟩)
      (fun tx dr h _ hlt => ⟨h.1, h.2.1, by omega, by omega⟩)
      (fun tx dr h hlt => ⟨h.1, h.2.1, by omega, by omega⟩)
      _ (truncToInt (snrMarginSpec req / 3)) req.TxPowerIndex (min req.DR req.MaxDR) rfl
      ⟨by rw [hmin]; exact hDR0, by rw [hmin]; exact hDR, hTx0, hTx⟩
    split_ifs
    · exact ⟨hinv.1, hinv.2.1, hinv.2.2.1, hinv.2.2.2, h1, h3⟩
    · exact ⟨by rw [hmin]; exact hDR0, by rw [hmin]; exact hDR, hTx0, hTx, h1, h3⟩

/-- Scenario C satisfies the caller invariants, and so does its response. -/
theorem C2_response_within_bounds_witness :
    (0 ≤ scenarioC.DR ∧ scenarioC.DR ≤ scenarioC.MaxDR ∧
      0 ≤ scenarioC.TxPowerIndex ∧ scenarioC.TxPowerIndex ≤ scenarioC.MaxTxPowerIndex ∧
      1 ≤ scenarioC.NbTrans ∧ scenarioC.NbTrans ≤ 3) ∧
    ∃ resp : HandleResponse, Handle scenarioC = some (resp, none) ∧
      0 ≤ resp.DR ∧ resp.DR ≤ scenarioC.MaxDR ∧
      0 ≤ resp.TxPowerIndex ∧ resp.TxPowerIndex ≤ scenarioC.MaxTxPowerIndex ∧
      1 ≤ resp.NbTrans ∧ resp.NbTrans ≤ 3 :=
  ⟨by decide, C2_response_within_bounds scenarioC (by decide) (by decide) (by decide)
    (by decide) (by decide) (by decide)⟩

/-- C3, as stated, fails: with ADR disabled, DR 7 and MaxDR 5 the response keeps DR 7,
which is above MaxDR. -/
theorem C3_data_rate_ceiling_counterexample :
    Handle disabledAboveMaxDR =
        some ({ DR := 7, TxPowerIndex := 2, NbTrans := 1 }, none) ∧
      disabledAboveMaxDR.MaxDR = 5 ∧
      ¬ (∀ (req : HandleRequest) (resp : HandleResponse) (err : GoError),
          Handle req = some (resp, err) → resp.DR ≤ req.MaxDR) := by
  have hH : Handle disabledAboveMaxDR =
      some ({ DR := 7, TxPowerIndex := 2, NbTrans := 1 }, none) :=
    Handle_disabled disabledAboveMaxDR rfl
  refine ⟨hH, rfl, fun h => ?_⟩
  have h2 := h disabledAboveMaxDR _ _ hH
  exact absurd h2 (by decide)

/-- C3, amended: for every request that has ADR enabled, or whose DR does not exceed
MaxDR already, `Handle` returns a response with a nil error and `resp.DR ≤ req.MaxDR`. -/
theorem C3_data_rate_ceiling (req : HandleRequest)
    (h : req.ADR = true ∨ req.DR ≤ req.MaxDR) :
    ∃ resp : HandleResponse, Handle req = some (resp, none) ∧ resp.DR ≤ req.MaxDR := by
  cases hADR : req.ADR with
  | false =>
    have hDR : req.DR ≤ req.MaxDR := by
      rcases h with h | h
      · rw [hADR] at h; exact absurd h (by decide)
      · exact h
    exact ⟨_, Handle_disabled req hADR, hDR⟩
  | true =>
    obtain ⟨n, _, _, _, hH⟩ := Handle_enabled req hADR
    refine ⟨_, hH, ?_⟩
    have hinv := getIdealTxPowerIndexAndDR_invariant
      (fun _ dr => dr ≤ req.MaxDR) req.MaxTxPowerIndex req.MaxDR
      (fun tx dr h hlt => by omega) (fun tx dr h _ _ => h) (fun tx dr h _ => h)
      _ (truncToInt (snrMarginSpec req / 3)) req.TxPowerIndex (min req.DR req.MaxDR) rfl
      (min_le_right _ _)
    split_ifs
    · exact hinv
    · exact min_le_right _ _

/-- Scenario B: ADR enabled with DR 7 above MaxDR 5; the response DR is at most 5. -/
theorem C3_data_rate_ceiling_witness :
    (scenarioB.ADR = true ∨ scenarioB.DR ≤ scenarioB.MaxDR) ∧
    ∃ resp : HandleResponse, Handle scenarioB = some (resp, none) ∧
      resp.DR ≤ scenarioB.MaxDR :=
  ⟨Or.inl rfl, C3_data_rate_ceiling scenarioB (Or.inl rfl)⟩

/-- C4, as stated, fails: with ADR disabled and NbTrans 0 the response keeps NbTrans 0,
which is not in `{1, 2, 3}`. -/
theorem C4_retransmission_bound_counterexample :
    Handle disabledNbTransZero =
        some ({ DR := 5, TxPowerIndex := 2, NbTrans := 0 }, none) ∧
      ¬ (∀ (req : HandleRequest) (resp : HandleResponse) (err : GoError),
          Handle req = some (resp, err) →
            resp.NbTrans = 1 ∨ resp.NbTrans = 2 ∨ resp.NbTrans = 3) := by
  have hH : Handle disabledNbTransZero =
      some ({ DR := 5, TxPowerIndex := 2, NbTrans := 0 }, none) :=
    Handle_disabled disabledNbTransZero rfl
  refine ⟨hH, fun h => ?_⟩
  have h2 := h disabledNbTransZero _ _ hH
  exact absurd h2 (by decide)

/-- C4, amended: for every request that has ADR enabled (whatever integer NbTrans is),
or whose NbTrans is within `1..3` already, `Handle` returns a response with a nil error
and `resp.NbTrans` in `{1, 2, 3}`. -/
theorem C4_retransmission_bound (req : HandleRequest)
    (h : req.ADR = true ∨ (1 ≤ req.NbTrans ∧ req.NbTrans ≤ 3)) :
    ∃ resp : HandleResponse, Handle req = some (resp, none) ∧
      (resp.NbTrans = 1 ∨ resp.NbTrans = 2 ∨ resp.NbTrans = 3) := by
  cases hADR : req.ADR with
  | false =>
    have hNb : 1 ≤ req.NbTrans ∧ req.NbTrans ≤ 3 := by
      rcases h with h | h
      · rw [hADR] at h; exact absurd h (by decide)
      · exact h
    refine ⟨_, Handle_disabled req hADR, ?_⟩
    show req.NbTrans = 1 ∨ req.NbTrans = 2 ∨ req.NbTrans = 3
    omega
  | true =>
    obtain ⟨n, _, h1, h3, hH⟩ := Handle_enabled req hADR
    refine ⟨_, hH, ?_⟩
    split_ifs
    · show n = 1 ∨ n = 2 ∨ n = 3
      omega
    · show n = 1 ∨ n = 2 ∨ n = 3
      omega

/-- Scenario B with NbTrans 7: ADR enabled, the response NbTrans is in `{1, 2, 3}`. -/
theorem C4_retransmission_bound_witness :
    (enabledNbTransSeven.ADR = true ∨
      (1 ≤ enabledNbTransSeven.NbTrans ∧ enabledNbTransSeven.NbTrans ≤ 3)) ∧
    ∃ resp : HandleResponse, Handle enabledNbTransSeven = some (resp, none) ∧
      (resp.NbTrans = 1 ∨ resp.NbTrans = 2 ∨ resp.NbTrans = 3) :=
  ⟨Or.inl rfl, C4_retransmission_bound enabledNbTransSeven (Or.inl rfl)⟩

/-- C5: for every ADR-enabled request whose uplink history has at most 10 records
(whatever power index each record carries), the step optimizer has no effect:
`resp.TxPowerIndex = req.TxPowerIndex` and `resp.DR = min req.DR req.MaxDR`. -/
theorem C5_short_history_guard (req : HandleRequest) (hADR : req.ADR = true)
    (hLen : req.UplinkHistory.length ≤ 10) :
    ∃ resp : HandleResponse, Handle req = some (resp, none) ∧
      resp.TxPowerIndex = req.TxPowerIndex ∧ resp.DR = min req.DR req.MaxDR := by
  have hle := recordsAtPower_length_le req.TxPowerIndex req.UplinkHistory
  obtain ⟨n, _, hH⟩ := Handle_enabled_no_step req hADR (by omega)
  exact ⟨_, hH, rfl, rfl⟩

/-- Scenario B: empty history, DR 7 and MaxDR 5; the response has DR 5 and the power
index of the request. -/
theorem C5_short_history_guard_witness :
    (scenarioB.ADR = true ∧ scenarioB.UplinkHistory.length ≤ 10) ∧
    ∃ resp : HandleResponse, Handle scenarioB = some (resp, none) ∧
      resp.TxPowerIndex = scenarioB.TxPowerIndex ∧
      resp.DR = min scenarioB.DR scenarioB.MaxDR :=
  ⟨⟨rfl, by decide⟩, C5_short_history_guard scenarioB rfl (by decide)⟩

/-- C6, as stated, fails: scenario C with 11 records of which only 5 are at the current
power index 0 has ADR enabled, more than 10 records in total, a record at the current
power index and a margin of 13 (4 steps), yet `Handle` leaves `(TxPowerIndex, DR)` at
`(0, 2)`, in exact arithmetic and in float32 alike, while the step optimizer's result
for the claimed `nStep` is `(1, 5)`. -/
theorem C6_total_history_gate_counterexample :
    mixedPowerHistory.ADR = true ∧
    10 < mixedPowerHistory.UplinkHistory.length ∧
    (∃ m ∈ mixedPowerHistory.UplinkHistory,
      m.TXPowerIndex = mixedPowerHistory.TxPowerIndex) ∧
    Handle mixedPowerHistory =
      some ({ DR := 2, TxPowerIndex := 0, NbTrans := 1 }, none) ∧
    HandleF32 mixedPowerHistory =
      some ({ DR := 2, TxPowerIndex := 0, NbTrans := 1 }, none) ∧
    getIdealTxPowerIndexAndDR (truncToInt (snrMarginSpec mixedPowerHistory / 3))
      mixedPowerHistory.TxPowerIndex
      (min mixedPowerHistory.DR mixedPowerHistory.MaxDR)
      mixedPowerHistory.MaxTxPowerIndex mixedPowerHistory.MaxDR = (1, 5) := by
  refine ⟨rfl, by decide, by decide, ?_, HandleF32_mixedPowerHistory, ?_⟩
  · obtain ⟨n, hn, hH⟩ := Handle_enabled_no_step mixedPowerHistory rfl (by decide)
    rw [getPacketLossPercentage_mixedPowerHistory] at hn
    have h1 : getNbTrans mixedPowerHistory.NbTrans 0 = some 1 := by decide
    rw [h1] at hn
    rw [hH, ← Option.some.inj hn]
    rfl
  · rw [snrMarginSpec_mixedPowerHistory, truncToInt_thirteen_thirds]
    simp [getIdealTxPowerIndexAndDR, mixedPowerHistory, scenarioC]

/-- C6, amended: the step phase is gated on the number of history records at the
request's current power index, not on the total history length, and the number of
steps is computed in float32. For every ADR-enabled request whose history has more
than 10 records in total, at least one of them at the current power index: when more
than 10 records are at the current power index, the response's `(TxPowerIndex, DR)` is
the step optimizer's result for `nStep = truncate(margin / 3)` started from
`(req.TxPowerIndex, min req.DR req.MaxDR)` with bounds `MaxTxPowerIndex` and `MaxDR`,
where the mean of `MaxSNR` over the records at the current power index, the margin
`(mean - RequiredSNRForDR) - InstallationMargin` and the quotient are float32 results,
each operation rounded; otherwise the step phase is skipped and `(TxPowerIndex, DR)`
is `(req.TxPowerIndex, min req.DR req.MaxDR)`. -/
theorem C6_step_phase_gate (req : HandleRequest) (hADR : req.ADR = true)
    (_hLen : 10 < req.UplinkHistory.length)
    (_hOne : ∃ m ∈ req.UplinkHistory, m.TXPowerIndex = req.TxPowerIndex) :
    ∃ resp : HandleResponse, HandleF32 req = some (resp, none) ∧
      (resp.TxPowerIndex, resp.DR) =
        if 10 < (recordsAtPower req.TxPowerIndex req.UplinkHistory).length then
          getIdealTxPowerIndexAndDR
            (truncToInt (divF32 (subF32 (subF32
              (meanF32 ((recordsAtPower req.TxPowerIndex req.UplinkHistory).map
                (fun m => m.MaxSNR)))
              req.RequiredSNRForDR) req.InstallationMargin) 3))
            req.TxPowerIndex (min req.DR req.MaxDR) req.MaxTxPowerIndex req.MaxDR
        else
          (req.TxPowerIndex, min req.DR req.MaxDR) := by
  obtain ⟨n, _, _, _, hH⟩ := HandleF32_enabled req hADR
  refine ⟨_, hH, ?_⟩
  split_ifs <;> rfl

/-- The request of the counterexample: 11 records, 5 at the current power index; the
step phase is skipped. -/
theorem C6_step_phase_gate_witness :
    (mixedPowerHistory.ADR = true ∧ 10 < mixedPowerHistory.UplinkHistory.length ∧
      ∃ m ∈ mixedPowerHistory.UplinkHistory,
        m.TXPowerIndex = mixedPowerHistory.TxPowerIndex) ∧
    ∃ resp : HandleResponse, HandleF32 mixedPowerHistory = some (resp, none) ∧
      (resp.TxPowerIndex, resp.DR) =
        if 10 < (recordsAtPower mixedPowerHistory.TxPowerIndex
            mixedPowerHistory.UplinkHistory).length then
          getIdealTxPowerIndexAndDR
            (truncToInt (divF32 (subF32 (subF32
              (meanF32 ((recordsAtPower mixedPowerHistory.TxPowerIndex
                mixedPowerHistory.UplinkHistory).map (fun m => m.MaxSNR)))
              mixedPowerHistory.RequiredSNRForDR) mixedPowerHistory.InstallationMargin) 3))
            mixedPowerHistory.TxPowerIndex
            (min mixedPowerHistory.DR mixedPowerHistory.MaxDR)
            mixedPowerHistory.MaxTxPowerIndex mixedPowerHistory.MaxDR
        else
          (mixedPowerHistory.TxPowerIndex,
            min mixedPowerHistory.DR mixedPowerHistory.MaxDR) :=
  ⟨⟨rfl, by decide, by decide⟩,
    C6_step_phase_gate mixedPowerHistory rfl (by decide) (by decide)⟩

/-- C7: for every ADR-enabled request whose history contains no record at the request's
current power index, however long the history is, `Handle` does not adjust by steps:
`resp.TxPowerIndex = req.TxPowerIndex` and `resp.DR = min req.DR req.MaxDR`. -/
theorem C7_no_matching_history_skips_steps (req : HandleRequest) (hADR : req.ADR = true)
    (hNone : ∀ m ∈ req.UplinkHistory, m.TXPowerIndex ≠ req.TxPowerIndex) :
    ∃ resp : HandleResponse, Handle req = some (resp, none) ∧
      resp.TxPowerIndex = req.TxPowerIndex ∧ resp.DR = min req.DR req.MaxDR := by
  have hnil := recordsAtPower_eq_nil req.TxPowerIndex req.UplinkHistory hNone
  obtain ⟨n, _, hH⟩ := Handle_enabled_no_step req hADR (by simp [hnil])
  exact ⟨_, hH, rfl, rfl⟩

/-- Twelve records, all at power index 1, for a request at power index 0. -/
theorem C7_no_matching_history_skips_steps_witness :
    (noMatchingHistory.ADR = true ∧
      ∀ m ∈ noMatchingHistory.UplinkHistory,
        m.TXPowerIndex ≠ noMatchingHistory.TxPowerIndex) ∧
    ∃ resp : HandleResponse, Handle noMatchingHistory = some (resp, none) ∧
      resp.TxPowerIndex = noMatchingHistory.TxPowerIndex ∧
      resp.DR = min noMatchingHistory.DR noMatchingHistory.MaxDR :=
  ⟨⟨rfl, by decide⟩, C7_no_matching_history_skips_steps noMatchingHistory rfl (by decide)⟩

/-- C8, as stated, fails: the code computes the mean in float32, not exactly. With the
measurement `10 - 2^-20 = 10485759/1048576` (a float32 value) followed by ten
measurements of 10 (all 11 at the current
power index), required SNR 5 and installation margin 2, the exact margin is
`34603007/11534336`, below 3, so the claimed `nStep` is 0 and the claimed result
`(TxPowerIndex, DR) = (0, 2)`; in float32 the running sum rounds to 20 at the second
record, the margin is 3, `nStep` is 1 and `Handle` returns DR 3. -/
theorem C8_exact_mean_counterexample :
    roundingHistory.ADR = true ∧
    roundF32 (10485759 / 1048576) = 10485759 / 1048576 ∧
    10 < (recordsAtPower roundingHistory.TxPowerIndex
      roundingHistory.UplinkHistory).length ∧
    snrMarginSpec roundingHistory = 34603007 / 11534336 ∧
    getIdealTxPowerIndexAndDR (truncToInt (snrMarginSpec roundingHistory / 3))
      roundingHistory.TxPowerIndex (min roundingHistory.DR roundingHistory.MaxDR)
      roundingHistory.MaxTxPowerIndex roundingHistory.MaxDR = (0, 2) ∧
    snrMarginF32 roundingHistory = 3 ∧
    HandleF32 roundingHistory =
      some ({ DR := 3, TxPowerIndex := 0, NbTrans := 1 }, none) := by
  refine ⟨rfl, roundF32_ten_minus_ulp, by decide, snrMarginSpec_roundingHistory, ?_,
    snrMarginF32_roundingHistory, HandleF32_roundingHistory⟩
  rw [snrMarginSpec_roundingHistory,
    truncToInt_eq_zero _ (by norm_num) (by norm_num), getIdealTxPowerIndexAndDR_zero]
  rfl

/-- C8, amended: for every ADR-enabled request with more than 10 history records at the
current power index, `Handle` returns `(resp.TxPowerIndex, resp.DR) =
getIdealTxPowerIndexAndDR nStep req.TxPowerIndex (min req.DR req.MaxDR)
req.MaxTxPowerIndex req.MaxDR` with `nStep` the truncation toward zero of the float32
quotient `margin / 3`, `margin = (mean - RequiredSNRForDR) - InstallationMargin` in
float32, and `mean` the float32 mean of `MaxSNR` over exactly the records at the
current power index: their running float32 sum in history order, divided in float32
by their count (the count itself is exact up to `2^24` records). A history with the
same records at the current power index (other records added, removed or changed)
gives the same `(TxPowerIndex, DR)`. -/
theorem C8_step_result_from_float32_mean (req : HandleRequest) (hADR : req.ADR = true)
    (hCount : 10 < (recordsAtPower req.TxPowerIndex req.UplinkHistory).length) :
    ∃ resp : HandleResponse, HandleF32 req = some (resp, none) ∧
      (resp.TxPowerIndex, resp.DR) =
        getIdealTxPowerIndexAndDR
          (truncToInt (divF32 (subF32 (subF32
            (meanF32 ((recordsAtPower req.TxPowerIndex req.UplinkHistory).map
              (fun m => m.MaxSNR)))
            req.RequiredSNRForDR) req.InstallationMargin) 3))
          req.TxPowerIndex (min req.DR req.MaxDR) req.MaxTxPowerIndex req.MaxDR ∧
      ((recordsAtPower req.TxPowerIndex req.UplinkHistory).length ≤ 2 ^ 24 →
        meanF32 ((recordsAtPower req.TxPowerIndex req.UplinkHistory).map
            (fun m => m.MaxSNR)) =
          divF32 (sumF32 ((recordsAtPower req.TxPowerIndex req.UplinkHistory).map
              (fun m => m.MaxSNR)))
            ((recordsAtPower req.TxPowerIndex req.UplinkHistory).length : ℚ)) ∧
      ∀ other : List UplinkMetaData,
        recordsAtPower req.TxPowerIndex other =
          recordsAtPower req.TxPowerIndex req.UplinkHistory →
        ∃ resp2 : HandleResponse,
          HandleF32 { req with UplinkHistory := other } = some (resp2, none) ∧
          (resp2.TxPowerIndex, resp2.DR) = (resp.TxPowerIndex, resp.DR) := by
  obtain ⟨n, _, _, _, hH⟩ := HandleF32_enabled req hADR
  rw [if_pos hCount] at hH
  refine ⟨_, hH, rfl, ?_, ?_⟩
  · intro hle
    rw [meanF32, List.length_map, countF32_eq _ hle]
  · intro other hother
    obtain ⟨n2, _, _, _, hH2⟩ := HandleF32_enabled { req with UplinkHistory := other } hADR
    have hm : nStepF32 { req with UplinkHistory := other } = nStepF32 req := by
      simp only [nStepF32, snrMarginF32, hother]
    simp only [hother, if_pos hCount, hm] at hH2
    exact ⟨_, hH2, rfl⟩

/-- Scenario C: 11 records at power index 0 with MaxSNR 20 give the float32 margin 13
and 4 steps; the walk from `(0, 2)` with bounds 3 and 5 ends at power index 1 and
DR 5. -/
theorem C8_step_result_from_float32_mean_witness :
    (scenarioC.ADR = true ∧
      10 < (recordsAtPower scenarioC.TxPowerIndex scenarioC.UplinkHistory).length) ∧
    (∃ resp : HandleResponse, HandleF32 scenarioC = some (resp, none) ∧
      (resp.TxPowerIndex, resp.DR) =
        getIdealTxPowerIndexAndDR (nStepF32 scenarioC)
          scenarioC.TxPowerIndex (min scenarioC.DR scenarioC.MaxDR)
          scenarioC.MaxTxPowerIndex scenarioC.MaxDR) ∧
    nStepF32 scenarioC = 4 ∧
    getIdealTxPowerIndexAndDR 4 scenarioC.TxPowerIndex
      (min scenarioC.DR scenarioC.MaxDR) scenarioC.MaxTxPowerIndex scenarioC.MaxDR =
        (1, 5) := by
  obtain ⟨resp, hH, hres, _⟩ :=
    C8_step_result_from_float32_mean scenarioC rfl (by decide)
  refine ⟨⟨rfl, by decide⟩, ⟨resp, hH, hres⟩, nStepF32_scenarioC, ?_⟩
  simp [getIdealTxPowerIndexAndDR, scenarioC]

/-- C9, as stated, fails: the code computes the margin in float32, not exactly. With
twelve records at the current power index 2, three with the float32 of -2.7 and nine
with the float32 of -3.1, required SNR -10 and installation margin 10, the exact margin
is `-50331647/16777216`, strictly between -3 and 3, yet the float32 sum is -36, the
float32 margin is -3, `nStep` is -1 and `Handle` lowers the power index from 2 to 1. -/
theorem C9_exact_margin_counterexample :
    negativeRoundingHistory.ADR = true ∧
    roundF32 (-27 / 10) = f32Minus2p7 ∧ roundF32 (-31 / 10) = f32Minus3p1 ∧
    10 < (recordsAtPower negativeRoundingHistory.TxPowerIndex
      negativeRoundingHistory.UplinkHistory).length ∧
    -3 < snrMarginSpec negativeRoundingHistory ∧
    snrMarginSpec negativeRoundingHistory < 3 ∧
    truncToInt (snrMarginSpec negativeRoundingHistory / 3) = 0 ∧
    negativeRoundingHistory.TxPowerIndex = 2 ∧
    snrMarginF32 negativeRoundingHistory = -3 ∧
    nStepF32 negativeRoundingHistory = -1 ∧
    HandleF32 negativeRoundingHistory =
      some ({ DR := 2, TxPowerIndex := 1, NbTrans := 1 }, none) := by
  refine ⟨rfl, f32Minus2p7_eq, f32Minus3p1_eq, by decide, ?_, ?_, ?_, rfl,
    snrMarginF32_negativeRoundingHistory,
    nStepF32_negativeRoundingHistory, HandleF32_negativeRoundingHistory⟩
  · rw [snrMarginSpec_negativeRoundingHistory]; norm_num
  · rw [snrMarginSpec_negativeRoundingHistory]; norm_num
  · rw [snrMarginSpec_negativeRoundingHistory]
    exact truncToInt_eq_zero _ (by norm_num) (by norm_num)

/-- C9, amended: the step count truncates toward zero. For every ADR-enabled request
with more than 10 history records at the current power index whose margin, as the code
computes it in float32 (float32 mean `MaxSNR` of those records, minus
`RequiredSNRForDR`, minus `InstallationMargin`, each operation rounded), lies strictly
between -3 and 3, `nStep` is 0 and `Handle` makes no step adjustment:
`resp.TxPowerIndex = req.TxPowerIndex` and `resp.DR = min req.DR req.MaxDR`. -/
theorem C9_small_float32_margin_no_step (req : HandleRequest) (hADR : req.ADR = true)
    (hCount : 10 < (recordsAtPower req.TxPowerIndex req.UplinkHistory).length)
    (hLow : -3 < snrMarginF32 req) (hHigh : snrMarginF32 req < 3) :
    truncToInt (divF32 (snrMarginF32 req) 3) = 0 ∧
    ∃ resp : HandleResponse, HandleF32 req = some (resp, none) ∧
      resp.TxPowerIndex = req.TxPowerIndex ∧ resp.DR = min req.DR req.MaxDR := by
  have h0 : nStepF32 req = 0 := nStepF32_eq_zero req hLow hHigh
  obtain ⟨n, _, _, _, hH⟩ := HandleF32_enabled req hADR
  rw [if_pos hCount, h0, getIdealTxPowerIndexAndDR_zero] at hH
  exact ⟨h0, _, hH, rfl, rfl⟩

/-- Scenario D: 11 records at power index 0 with MaxSNR 5 give the float32 margin -2;
the power index stays 0 and the DR stays 2. -/
theorem C9_small_float32_margin_no_step_witness :
    (scenarioD.ADR = true ∧
      10 < (recordsAtPower scenarioD.TxPowerIndex scenarioD.UplinkHistory).length ∧
      snrMarginF32 scenarioD = -2 ∧
      -3 < snrMarginF32 scenarioD ∧ snrMarginF32 scenarioD < 3) ∧
    (truncToInt (divF32 (snrMarginF32 scenarioD) 3) = 0 ∧
      ∃ resp : HandleResponse, HandleF32 scenarioD = some (resp, none) ∧
        resp.TxPowerIndex = scenarioD.TxPowerIndex ∧
        resp.DR = min scenarioD.DR scenarioD.MaxDR) :=
  ⟨⟨rfl, by decide, snrMarginF32_scenarioD,
      by rw [snrMarginF32_scenarioD]; norm_num,
      by rw [snrMarginF32_scenarioD]; norm_num⟩,
    C9_small_float32_margin_no_step scenarioD rfl (by decide)
      (by rw [snrMarginF32_scenarioD]; norm_num)
      (by rw [snrMarginF32_scenarioD]; norm_num)⟩

/-- C10: for every ADR-enabled request the new retransmission count is the selector's
value for the estimated loss, whether or not the step phase runs:
`getNbTrans req.NbTrans (getPacketLossPercentage req) = resp.NbTrans`. With fewer than
10 history records, `resp.NbTrans = 1` when `req.NbTrans ≤ 2` and `resp.NbTrans = 2`
when `req.NbTrans ≥ 3`. -/
theorem C10_nbTrans_from_selector (req : HandleRequest) (hADR : req.ADR = true) :
    ∃ resp : HandleResponse, Handle req = some (resp, none) ∧
      getNbTrans req.NbTrans (getPacketLossPercentage req) = some resp.NbTrans ∧
      (req.UplinkHistory.length < 10 →
        (req.NbTrans ≤ 2 → resp.NbTrans = 1) ∧ (3 ≤ req.NbTrans → resp.NbTrans = 2)) := by
  obtain ⟨n, hn, _, _, hH⟩ := Handle_enabled req hADR
  have hsel : ∀ resp : HandleResponse, resp.NbTrans = n →
      getNbTrans req.NbTrans (getPacketLossPercentage req) = some resp.NbTrans ∧
      (req.UplinkHistory.length < 10 →
        (req.NbTrans ≤ 2 → resp.NbTrans = 1) ∧
          (3 ≤ req.NbTrans → resp.NbTrans = 2)) := by
    intro resp hresp
    rw [hresp]
    refine ⟨hn, fun hlen => ?_⟩
    have hlow := getNbTrans_low_loss req.NbTrans (getPacketLossPercentage req)
      (by rw [getPacketLossPercentage_short req hlen]; norm_num)
    rw [hn] at hlow
    have hval := Option.some.inj hlow
    constructor
    · intro h2
      rw [hval, if_pos h2]
    · intro h3
      rw [hval, if_neg (by omega)]
  refine ⟨_, hH, hsel _ ?_⟩
  split_ifs <;> rfl

/-- Scenario B: ADR enabled, empty history, NbTrans 1; the response NbTrans is 1. -/
theorem C10_nbTrans_from_selector_witness :
    scenarioB.ADR = true ∧
    ∃ resp : HandleResponse, Handle scenarioB = some (resp, none) ∧
      getNbTrans scenarioB.NbTrans (getPacketLossPercentage scenarioB) =
        some resp.NbTrans ∧
      (scenarioB.UplinkHistory.length < 10 →
        (scenarioB.NbTrans ≤ 2 → resp.NbTrans = 1) ∧
          (3 ≤ scenarioB.NbTrans → resp.NbTrans = 2)) :=
  ⟨rfl, C10_nbTrans_from_selector scenarioB rfl⟩


/-- C11: for every integer `currentNbTrans` and every loss percentage `p`,
`getNbTrans currentNbTrans p` is the entry of the fixed 4x3 table
`[[1,1,2],[1,2,3],[2,3,3],[3,3,3]]` at row `b` and column `c - 1`, with
`c = min (max currentNbTrans 1) 3` and `b` the loss bucket (0 below 5, 1 below 10,
2 below 30, 3 from 30 on); both indices are in range and the lookup never faults. -/
theorem C11_getNbTrans_table_entry (currentNbTrans : Int) (p : ℚ) :
    pktLossRateTable = [[1, 1, 2], [1, 2, 3], [2, 3, 3], [3, 3, 3]] ∧
    0 ≤ clampNbTrans currentNbTrans - 1 ∧
    ∃ (hb : lossBucket p < 4) (hc : (clampNbTrans currentNbTrans - 1).toNat < 3),
      tableAt (lossBucket p) (clampNbTrans currentNbTrans - 1) =
        some (nbTransTableSpec ⟨lossBucket p, hb⟩
          ⟨(clampNbTrans currentNbTrans - 1).toNat, hc⟩) ∧
      getNbTrans currentNbTrans p =
        some (nbTransTableSpec ⟨lossBucket p, hb⟩
          ⟨(clampNbTrans currentNbTrans - 1).toNat, hc⟩) := by
  have hr := clampNbTrans_range currentNbTrans
  have hb := lossBucket_lt p
  have hc : (clampNbTrans currentNbTrans - 1).toNat < 3 := by omega
  refine ⟨rfl, by omega, hb, hc, ?_, getNbTrans_eq_table currentNbTrans p hb hc⟩
  have hcases : clampNbTrans currentNbTrans = 1 ∨ clampNbTrans currentNbTrans = 2 ∨
      clampNbTrans currentNbTrans = 3 := by omega
  have hbs : lossBucket p = 0 ∨ lossBucket p = 1 ∨ lossBucket p = 2 ∨ lossBucket p = 3 := by
    omega
  generalize clampNbTrans currentNbTrans = k at hc hcases ⊢
  generalize lossBucket p = b at hb hbs ⊢
  rcases hcases with rfl | rfl | rfl <;> rcases hbs with rfl | rfl | rfl | rfl <;>
    simp [tableAt, indexInt, pktLossRateTable, nbTransTableSpec]

/-- C12: `getNbTrans` is monotonically non-decreasing in the loss percentage and
saturates at 3: for every integer `currentNbTrans` and all `p1 ≤ p2`,
`getNbTrans currentNbTrans p1 ≤ getNbTrans currentNbTrans p2 ≤ 3`, and
`getNbTrans currentNbTrans p = 3` whenever `p ≥ 30`. -/
theorem C12_getNbTrans_monotone (currentNbTrans : Int) (p1 p2 : ℚ) (h : p1 ≤ p2) :
    (∃ n1 n2 : Int, getNbTrans currentNbTrans p1 = some n1 ∧
      getNbTrans currentNbTrans p2 = some n2 ∧ n1 ≤ n2 ∧ n2 ≤ 3) ∧
    ∀ p : ℚ, 30 ≤ p → getNbTrans currentNbTrans p = some 3 := by
  have hr := clampNbTrans_range currentNbTrans
  have hc : (clampNbTrans currentNbTrans - 1).toNat < 3 := by omega
  constructor
  · refine ⟨_, _, getNbTrans_eq_table currentNbTrans p1 (lossBucket_lt p1) hc,
      getNbTrans_eq_table currentNbTrans p2 (lossBucket_lt p2) hc, ?_, ?_⟩
    · exact nbTransTableSpec_mono _ _ _ (lossBucket_mono p1 p2 h)
    · exact (nbTransTableSpec_le_three _ _).2
  · intro p hp
    rw [getNbTrans_eq_table currentNbTrans p (lossBucket_lt p) hc]
    have h3 : (⟨lossBucket p, lossBucket_lt p⟩ : Fin 4) = 3 :=
      Fin.ext (lossBucket_high p hp)
    rw [h3, nbTransTableSpec_last_row]

/-- A current count of 2: loss 7 gives 2, loss 12 gives 3. -/
theorem C12_getNbTrans_monotone_witness :
    ((7 : ℚ) ≤ 12) ∧
    ((∃ n1 n2 : Int, getNbTrans 2 7 = some n1 ∧ getNbTrans 2 12 = some n2 ∧
      n1 ≤ n2 ∧ n2 ≤ 3) ∧
    ∀ p : ℚ, 30 ≤ p → getNbTrans 2 p = some 3) :=
  ⟨by norm_num, C12_getNbTrans_monotone 2 7 12 (by norm_num)⟩

/-- C13: positive step walk, data rate first, then power index, surplus steps wasted.
For every `nStep = n > 0` and all integers with `dr ≤ maxDR` and
`txPowerIndex ≤ maxTxPowerIndex`, the walk returns `dr' = min (dr + n) maxDR` and
`txPowerIndex' = min (txPowerIndex + max 0 (n - (maxDR - dr))) maxTxPowerIndex`; the
power index is not raised while the steps fit below `maxDR`, and with both bounds
reached the walk changes nothing. -/
theorem C13_positive_step_walk (n txPowerIndex dr maxTxPowerIndex maxDR : Int)
    (hn : 0 < n) (hdr : dr ≤ maxDR) (htx : txPowerIndex ≤ maxTxPowerIndex) :
    getIdealTxPowerIndexAndDR n txPowerIndex dr maxTxPowerIndex maxDR =
      (min (txPowerIndex + max 0 (n - (maxDR - dr))) maxTxPowerIndex,
        min (dr + n) maxDR) ∧
    (n ≤ maxDR - dr →
      (getIdealTxPowerIndexAndDR n txPowerIndex dr maxTxPowerIndex maxDR).1 =
        txPowerIndex) ∧
    (dr = maxDR → txPowerIndex = maxTxPowerIndex →
      getIdealTxPowerIndexAndDR n txPowerIndex dr maxTxPowerIndex maxDR =
        (txPowerIndex, dr)) := by
  obtain ⟨k, rfl⟩ := Int.eq_ofNat_of_zero_le (le_of_lt hn)
  have hcf := getIdealTxPowerIndexAndDR_pos maxTxPowerIndex maxDR k txPowerIndex dr hdr htx
  refine ⟨hcf, ?_, ?_⟩
  · intro hfit
    rw [hcf]
    simp only
    omega
  · intro h1 h2
    rw [hcf]
    refine Prod.ext ?_ ?_ <;> simp only <;> omega

/-- Four steps from power index 0 and DR 2 with bounds 3 and 5 end at `(1, 5)`. -/
theorem C13_positive_step_walk_witness :
    ((0 : Int) < 4 ∧ (2 : Int) ≤ 5 ∧ (0 : Int) ≤ 3) ∧
    (getIdealTxPowerIndexAndDR 4 0 2 3 5 = (1, 5) ∧
      ((4 : Int) ≤ 5 - 2 → (getIdealTxPowerIndexAndDR 4 0 2 3 5).1 = 0) ∧
      ((2 : Int) = 5 → (0 : Int) = 3 → getIdealTxPowerIndexAndDR 4 0 2 3 5 = (0, 2))) :=
  ⟨by decide, C13_positive_step_walk 4 0 2 3 5 (by decide) (by decide) (by decide)⟩

/-- C14: negative step walk. For every `nStep = -k` with `k > 0` and all integers, the
walk returns the data rate unchanged and `txPowerIndex' = max (txPowerIndex - k) 0`
when `txPowerIndex ≥ 0` (`txPowerIndex' = txPowerIndex` when `txPowerIndex < 0`); the
result does not depend on `maxTxPowerIndex` or `maxDR`. -/
theorem C14_negative_step_walk (k txPowerIndex dr maxTxPowerIndex maxDR : Int)
    (hk : 0 < k) :
    getIdealTxPowerIndexAndDR (-k) txPowerIndex dr maxTxPowerIndex maxDR =
      (if 0 ≤ txPowerIndex then max (txPowerIndex - k) 0 else txPowerIndex, dr) ∧
    ∀ maxTxPowerIndex2 maxDR2 : Int,
      getIdealTxPowerIndexAndDR (-k) txPowerIndex dr maxTxPowerIndex2 maxDR2 =
        getIdealTxPowerIndexAndDR (-k) txPowerIndex dr maxTxPowerIndex maxDR := by
  obtain ⟨j, rfl⟩ := Int.eq_ofNat_of_zero_le (le_of_lt hk)
  refine ⟨getIdealTxPowerIndexAndDR_neg maxTxPowerIndex maxDR j txPowerIndex dr, ?_⟩
  intro m1 m2
  rw [getIdealTxPowerIndexAndDR_neg m1 m2 j txPowerIndex dr,
    getIdealTxPowerIndexAndDR_neg maxTxPowerIndex maxDR j txPowerIndex dr]

/-- Three steps down from power index 1 and DR 4 end at `(0, 4)`. -/
theorem C14_negative_step_walk_witness :
    ((0 : Int) < 3) ∧
    (getIdealTxPowerIndexAndDR (-3) 1 4 3 5 = (0, 4) ∧
      ∀ maxTxPowerIndex2 maxDR2 : Int,
        getIdealTxPowerIndexAndDR (-3) 1 4 maxTxPowerIndex2 maxDR2 =
          getIdealTxPowerIndexAndDR (-3) 1 4 3 5) :=
  ⟨by decide, C14_negative_step_walk 3 1 4 3 5 (by decide)⟩

/-- C15: `getPacketLossPercentage` returns exactly 0 for every request whose uplink
history has fewer than 10 records, whatever the frame counters are. -/
theorem C15_short_history_no_loss (req : HandleRequest)
    (hLen : req.UplinkHistory.length < 10) : getPacketLossPercentage req = 0 := by
  have h2 : (req.UplinkHistory.length : Int) < requiredHistoryCount := by
    rw [requiredHistoryCount]; omega
  simp [getPacketLossPercentage, h2]

/-- Scenario E: frame counters 0, 1, 3 give 0, not 33.3. -/
theorem C15_short_history_no_loss_witness :
    scenarioE.UplinkHistory.length < 10 ∧ getPacketLossPercentage scenarioE = 0 :=
  ⟨by decide, C15_short_history_no_loss scenarioE (by decide)⟩

/-- C18: `getIdealTxPowerIndexAndDR` terminates for every integer `nStep` and all
integer arguments (the function is total, by recursion on `|nStep|`): a call with
`nStep ≠ 0` recurses on the arguments `walkStep` computes, whose `|nStep|` is smaller by
exactly 1 whether or not a bound blocked the change, and after exactly `|nStep|` such
steps, and not before, the counter is 0 and the state is the returned pair. -/
theorem C18_step_walk_terminates (nStep txPowerIndex dr maxTxPowerIndex maxDR : Int) :
    (nStep ≠ 0 →
      (walkStep maxTxPowerIndex maxDR (nStep, txPowerIndex, dr)).1.natAbs + 1 =
        nStep.natAbs ∧
      getIdealTxPowerIndexAndDR nStep txPowerIndex dr maxTxPowerIndex maxDR =
        getIdealTxPowerIndexAndDR
          (walkStep maxTxPowerIndex maxDR (nStep, txPowerIndex, dr)).1
          (walkStep maxTxPowerIndex maxDR (nStep, txPowerIndex, dr)).2.1
          (walkStep maxTxPowerIndex maxDR (nStep, txPowerIndex, dr)).2.2
          maxTxPowerIndex maxDR) ∧
    (walkStep maxTxPowerIndex maxDR)^[nStep.natAbs] (nStep, txPowerIndex, dr) =
      (0, getIdealTxPowerIndexAndDR nStep txPowerIndex dr maxTxPowerIndex maxDR) ∧
    ∀ j : Nat, j < nStep.natAbs →
      ((walkStep maxTxPowerIndex maxDR)^[j] (nStep, txPowerIndex, dr)).1 ≠ 0 := by
  obtain ⟨hres, hnz⟩ :=
    walkStep_iterate maxTxPowerIndex maxDR nStep.natAbs nStep txPowerIndex dr rfl
  exact ⟨fun h0 => ⟨walkStep_natAbs maxTxPowerIndex maxDR (nStep, txPowerIndex, dr) h0,
    getIdealTxPowerIndexAndDR_step nStep txPowerIndex dr maxTxPowerIndex maxDR h0⟩,
    hres, hnz⟩

/-- C19: the mean-SNR division in `Handle` is never a division by zero. Whenever the
gate `getHistoryCount req > requiredHistoryCount` of `Handle` holds, the divisor
`countSNR` of `getMeanSNR` is the number of history records at the request's power
index, and that number is at least 11. -/
theorem C19_mean_divisor_at_least_eleven (req : HandleRequest)
    (hGate : getHistoryCount req > requiredHistoryCount) :
    (getMeanSNRLoop req.TxPowerIndex 0 0 req.UplinkHistory).2 =
      ((recordsAtPower req.TxPowerIndex req.UplinkHistory).length : ℚ) ∧
    11 ≤ (recordsAtPower req.TxPowerIndex req.UplinkHistory).length ∧
    (getMeanSNRLoop req.TxPowerIndex 0 0 req.UplinkHistory).2 ≠ 0 := by
  rw [getHistoryCount_eq, requiredHistoryCount] at hGate
  have h11 : 11 ≤ (recordsAtPower req.TxPowerIndex req.UplinkHistory).length := by omega
  have hdiv : (getMeanSNRLoop req.TxPowerIndex 0 0 req.UplinkHistory).2 =
      ((recordsAtPower req.TxPowerIndex req.UplinkHistory).length : ℚ) := by
    rw [getMeanSNRLoop_eq]
    simp
  refine ⟨hdiv, h11, ?_⟩
  rw [hdiv]
  have hpos : (0 : ℚ) < ((recordsAtPower req.TxPowerIndex req.UplinkHistory).length : ℚ) := by
    exact_mod_cast (by omega : 0 < (recordsAtPower req.TxPowerIndex req.UplinkHistory).length)
  exact ne_of_gt hpos

/-- Scenario C: the gate holds with 11 records at power index 0. -/
theorem C19_mean_divisor_at_least_eleven_witness :
    getHistoryCount scenarioC > requiredHistoryCount ∧
    ((getMeanSNRLoop scenarioC.TxPowerIndex 0 0 scenarioC.UplinkHistory).2 =
      ((recordsAtPower scenarioC.TxPowerIndex scenarioC.UplinkHistory).length : ℚ) ∧
    11 ≤ (recordsAtPower scenarioC.TxPowerIndex scenarioC.UplinkHistory).length ∧
    (getMeanSNRLoop scenarioC.TxPowerIndex 0 0 scenarioC.UplinkHistory).2 ≠ 0) :=
  ⟨by decide, C19_mean_divisor_at_least_eleven scenarioC (by decide)⟩

/-- C16, as stated, fails: ten records with the non-decreasing frame counters
0, 0, 1, 2, ..., 8 have no pair with a delta above 1, so the claimed count is 0, but
the pair with delta 0 makes the `uint32` accumulator wrap to `2^32 - 1` and the
returned percentage is 42949672950. -/
theorem C16_non_decreasing_counterexample :
    10 ≤ duplicateFCntHistory.UplinkHistory.length ∧
    List.Chain' (fun a b : UplinkMetaData => a.FCnt ≤ b.FCnt)
      duplicateFCntHistory.UplinkHistory ∧
    lostPacketsSpec duplicateFCntHistory.UplinkHistory = 0 ∧
    lostPacketsLoop 0 0 0 duplicateFCntHistory.UplinkHistory = 4294967295 ∧
    getPacketLossPercentage duplicateFCntHistory = 42949672950 := by
  have h : lostPacketsLoop 0 0 0 duplicateFCntHistory.UplinkHistory = 4294967295 := by
    decide
  have h2 : duplicateFCntHistory.UplinkHistory.length = 10 := by decide
  refine ⟨by decide, by simp [duplicateFCntHistory, historyOfFCnts], by decide, h, ?_⟩
  rw [getPacketLossPercentage_long _ (by decide), h, h2]
  norm_num

/-- C16, amended: for every uplink history with at least 10 records (frame counters
within `uint32`) that is ordered by strictly increasing frame counter, the lost-packet
count used by `getPacketLossPercentage` is the sum over consecutive pairs of
`delta - 1` for the pairs whose delta is larger than 1, pairs with delta 1
contributing nothing, and the returned percentage is
`lostPackets / len(history) * 100`. -/
theorem C16_lost_packets_strictly_increasing (req : HandleRequest)
    (hLen : 10 ≤ req.UplinkHistory.length)
    (hU32 : ∀ m ∈ req.UplinkHistory, m.FCnt < 2 ^ 32)
    (hInc : List.Chain' (fun a b : UplinkMetaData => a.FCnt < b.FCnt)
      req.UplinkHistory) :
    ((lostPacketsLoop 0 0 0 req.UplinkHistory : Nat) : Int) =
      lostPacketsSpec req.UplinkHistory ∧
    getPacketLossPercentage req =
      (lostPacketsSpec req.UplinkHistory : ℚ) / (req.UplinkHistory.length : ℚ) * 100 := by
  have hcount : ((lostPacketsLoop 0 0 0 req.UplinkHistory : Nat) : Int) =
      lostPacketsSpec req.UplinkHistory := by
    cases hh : req.UplinkHistory with
    | nil => rw [hh] at hLen; simp at hLen
    | cons first rest =>
      rw [hh] at hInc hU32
      obtain ⟨hspec, hle⟩ := lostPacketsSpec_strict rest first hInc
      have hlast : lastFCntFrom first.FCnt rest < 2 ^ 32 := by
        rw [lastFCntFrom_eq_getLast rest first (List.cons_ne_nil _ _)]
        exact hU32 _ (List.getLast_mem _)
      norm_num at hlast
      rw [lostPacketsLoop_cons_cast, hspec]
      omega
  refine ⟨hcount, ?_⟩
  rw [getPacketLossPercentage_long req hLen, ← hcount, Int.cast_natCast]

/-- Ten records with counters 0, 1, 2, 5, 6, ..., 11: two packets lost, 20 percent. -/
theorem C16_lost_packets_strictly_increasing_witness :
    (10 ≤ gapHistory.UplinkHistory.length ∧
      (∀ m ∈ gapHistory.UplinkHistory, m.FCnt < 2 ^ 32) ∧
      List.Chain' (fun a b : UplinkMetaData => a.FCnt < b.FCnt)
        gapHistory.UplinkHistory) ∧
    lostPacketsSpec gapHistory.UplinkHistory = 2 ∧
    (((lostPacketsLoop 0 0 0 gapHistory.UplinkHistory : Nat) : Int) =
      lostPacketsSpec gapHistory.UplinkHistory ∧
    getPacketLossPercentage gapHistory =
      (lostPacketsSpec gapHistory.UplinkHistory : ℚ) /
        (gapHistory.UplinkHistory.length : ℚ) * 100) :=
  ⟨⟨by decide, by decide, by simp [gapHistory, historyOfFCnts]⟩, by decide,
    C16_lost_packets_strictly_increasing gapHistory (by decide) (by decide)
      (by simp [gapHistory, historyOfFCnts])⟩

/-- C17, as stated, fails: ten records with the frame counters 1, 0, 1, 2, ..., 8 have
one decreasing pair and otherwise deltas of 1, so with the regression clamped the
count would be 0, but the loop adds `0 - 1 - 1` in `uint32` for that pair: the count
is `2^32 - 2` and the returned percentage is 42949672940. -/
theorem C17_regression_clamped_counterexample :
    10 ≤ regressionHistory.UplinkHistory.length ∧
    regressionHistory.UplinkHistory =
      [] ++ { FCnt := 1, MaxSNR := 20, TXPowerIndex := 0 } ::
        { FCnt := 0, MaxSNR := 20, TXPowerIndex := 0 } ::
        historyOfFCnts [1, 2, 3, 4, 5, 6, 7, 8] ∧
    subU32 (subU32 0 1) 1 = 4294967294 ∧
    lostPacketsSpec regressionHistory.UplinkHistory = 0 ∧
    lostPacketsLoop 0 0 0 regressionHistory.UplinkHistory = 4294967294 ∧
    getPacketLossPercentage regressionHistory = 42949672940 := by
  have h : lostPacketsLoop 0 0 0 regressionHistory.UplinkHistory = 4294967294 := by
    decide
  have h2 : regressionHistory.UplinkHistory.length = 10 := by decide
  refine ⟨by decide, rfl, by decide, by decide, h, ?_⟩
  rw [getPacketLossPercentage_long _ (by decide), h, h2]
  norm_num

/-- C17, amended: a frame-counter regression is not clamped. For every uplink history
with at least 10 records, a consecutive pair `a, b` whose frame counter decreases
(`b.FCnt < a.FCnt < 2^32`) adds `(b.FCnt - a.FCnt - 1) mod 2^32`, that is
`2^32 - (a.FCnt - b.FCnt) - 1`, to the lost-packet count; this is 0 only for the wrap
from `2^32 - 1` to 0. The count of the whole history is the count of the records up to
`a`, plus this amount, plus the count of the records from `b` on, modulo `2^32`, and
the percentage is that count divided by the number of records, times 100. -/
theorem C17_regression_wraps (req : HandleRequest) (pre : List UplinkMetaData)
    (a b : UplinkMetaData) (post : List UplinkMetaData)
    (hHist : req.UplinkHistory = pre ++ a :: b :: post)
    (hLen : 10 ≤ req.UplinkHistory.length)
    (hU32 : a.FCnt < 2 ^ 32) (hDec : b.FCnt < a.FCnt) :
    subU32 (subU32 b.FCnt a.FCnt) 1 = 2 ^ 32 - (a.FCnt - b.FCnt) - 1 ∧
    (subU32 (subU32 b.FCnt a.FCnt) 1 = 0 ↔ a.FCnt = 2 ^ 32 - 1 ∧ b.FCnt = 0) ∧
    lostPacketsLoop 0 0 0 req.UplinkHistory =
      (lostPacketsLoop 0 0 0 (pre ++ [a]) + (2 ^ 32 - (a.FCnt - b.FCnt) - 1) +
        lostPacketsLoop 0 0 0 (b :: post)) % 2 ^ 32 ∧
    getPacketLossPercentage req =
      ((lostPacketsLoop 0 0 0 req.UplinkHistory : Nat) : ℚ) /
        (req.UplinkHistory.length : ℚ) * 100 := by
  have hpow : (2 : Nat) ^ 32 = 4294967296 := by norm_num
  rw [hpow] at hU32 ⊢
  have hpair : subU32 (subU32 b.FCnt a.FCnt) 1 = 4294967296 - (a.FCnt - b.FCnt) - 1 := by
    simp only [subU32, u32Mod_eq]
    omega
  refine ⟨hpair, ?_, ?_, getPacketLossPercentage_long req hLen⟩
  · rw [hpair]
    omega
  · rw [hHist, lostPacketsLoop_split, hpair]

/-- The history 1, 0, 1, 2, ..., 8 cut at its first pair: the pair adds `2^32 - 2`. -/
theorem C17_regression_wraps_witness :
    (regressionHistory.UplinkHistory =
        [] ++ { FCnt := 1, MaxSNR := 20, TXPowerIndex := 0 } ::
          { FCnt := 0, MaxSNR := 20, TXPowerIndex := 0 } ::
          historyOfFCnts [1, 2, 3, 4, 5, 6, 7, 8] ∧
      10 ≤ regressionHistory.UplinkHistory.length ∧
      (1 : Nat) < 2 ^ 32 ∧ (0 : Nat) < 1) ∧
    subU32 (subU32 0 1) 1 = 2 ^ 32 - (1 - 0) - 1 :=
  ⟨⟨rfl, by decide, by decide, by decide⟩,
    (C17_regression_wraps regressionHistory []
      { FCnt := 1, MaxSNR := 20, TXPowerIndex := 0 }
      { FCnt := 0, MaxSNR := 20, TXPowerIndex := 0 }
      (historyOfFCnts [1, 2, 3, 4, 5, 6, 7, 8]) rfl (by decide) (by decide)
      (by decide)).1⟩

/-- C20: the lost-packet sum telescopes in `uint32` arithmetic. For every uplink
history with `n ≥ 10` records, the `lostPackets` accumulator of
`getPacketLossPercentage` equals `(FCnt[last] - FCnt[first] - (n - 1)) mod 2^32`, and
the percentage is that value over `n`, times 100; a history with the same first and
last frame counters and the same number of records gives the same accumulator,
whatever its intermediate counters are; and when `FCnt[last] - FCnt[first]` falls
short of `n - 1` by `d` (with `0 < d ≤ 2^32`) the accumulator is `2^32 - d`. -/
theorem C20_lost_packets_telescope (req : HandleRequest) (first : UplinkMetaData)
    (rest : List UplinkMetaData) (hHist : req.UplinkHistory = first :: rest)
    (hLen : 10 ≤ req.UplinkHistory.length) :
    ((lostPacketsLoop 0 0 0 req.UplinkHistory : Nat) : Int) =
      ((((first :: rest).getLast (List.cons_ne_nil first rest)).FCnt : Int) -
        (first.FCnt : Int) - ((req.UplinkHistory.length : Int) - 1)) % 2 ^ 32 ∧
    getPacketLossPercentage req =
      ((lostPacketsLoop 0 0 0 req.UplinkHistory : Nat) : ℚ) /
        (req.UplinkHistory.length : ℚ) * 100 ∧
    (∀ (first2 : UplinkMetaData) (rest2 : List UplinkMetaData),
      rest2.length = rest.length → first2.FCnt = first.FCnt →
      ((first2 :: rest2).getLast (List.cons_ne_nil first2 rest2)).FCnt =
        ((first :: rest).getLast (List.cons_ne_nil first rest)).FCnt →
      lostPacketsLoop 0 0 0 (first2 :: rest2) =
        lostPacketsLoop 0 0 0 req.UplinkHistory) ∧
    (∀ d : Int, 0 < d → d ≤ 2 ^ 32 →
      (((first :: rest).getLast (List.cons_ne_nil first rest)).FCnt : Int) -
        (first.FCnt : Int) = ((req.UplinkHistory.length : Int) - 1) - d →
      ((lostPacketsLoop 0 0 0 req.UplinkHistory : Nat) : Int) = 2 ^ 32 - d) := by
  have hpow : (2 : Int) ^ 32 = 4294967296 := by norm_num
  have hlen : (req.UplinkHistory.length : Int) - 1 = (rest.length : Int) := by
    rw [hHist, List.length_cons]
    push_cast
    ring
  have hmain := lostPacketsLoop_cons_cast first rest
  rw [lastFCntFrom_eq_getLast rest first (List.cons_ne_nil _ _)] at hmain
  rw [hpow, hlen, hHist]
  refine ⟨hmain, ?_, ?_, ?_⟩
  · rw [← hHist]
    exact getPacketLossPercentage_long req hLen
  · intro first2 rest2 hl hf hlast
    have h2 := lostPacketsLoop_cons_cast first2 rest2
    rw [lastFCntFrom_eq_getLast rest2 first2 (List.cons_ne_nil _ _), hl, hf, hlast,
      ← hmain] at h2
    exact Int.ofNat_inj.mp h2
  · intro d hd0 hd hdiff
    rw [hmain, hdiff]
    omega

/-- Ten records with counters 0, 1, 1, 5, 3, 4, 6, 7, 8, 9: the duplicate and the
regression cancel, the accumulator is `(9 - 0 - 9) mod 2^32 = 0`, while the clamped
count of the spec would be 4. -/
theorem C20_lost_packets_telescope_witness :
    (cancelledRegressionHistory.UplinkHistory =
        cancelledRegressionFirst :: cancelledRegressionRest ∧
      10 ≤ cancelledRegressionHistory.UplinkHistory.length) ∧
    lostPacketsLoop 0 0 0 cancelledRegressionHistory.UplinkHistory = 0 ∧
    lostPacketsSpec cancelledRegressionHistory.UplinkHistory = 4 ∧
    ((lostPacketsLoop 0 0 0 cancelledRegressionHistory.UplinkHistory : Nat) : Int) =
      ((((cancelledRegressionFirst :: cancelledRegressionRest).getLast
          (List.cons_ne_nil cancelledRegressionFirst cancelledRegressionRest)).FCnt : Int)
        - (cancelledRegressionFirst.FCnt : Int)
        - ((cancelledRegressionHistory.UplinkHistory.length : Int) - 1)) % 2 ^ 32 :=
  ⟨⟨rfl, by decide⟩, by decide, by decide,
    (C20_lost_packets_telescope cancelledRegressionHistory cancelledRegressionFirst
      cancelledRegressionRest rfl (by decide)).1⟩


end LabSCim
